import Mathlib

set_option maxRecDepth 400000

/-!
# LEGACY Protocol — shallow embedding and verification

A shallow embedding, in Lean 4, of the core of the `legacy-protocol`
repository (a sharded UTXO blockchain organized around a Sierpinski-triangle
coordinate system), together with proofs and refutations of the behavioural
claims made by its specification.

Conventions of the embedding:

* Python `float` amounts and Cartesian coordinates are modelled as exact
  rationals (`ℚ`); the properties settled here do not depend on rounding of
  binary floating point.  The Cartesian `y` component, which is always a
  rational multiple of `√3`, is carried as its rational coefficient.
* Python `dict`s are insertion-ordered association lists; Python `set`s are
  lists deduplicated on insertion.
* Wall-clock reads (`time.time()`) become an explicit `now` argument.
* Exceptions become `Except String` results; `try/except` blocks that
  translate exceptions into `(False, message)` returns are modelled by
  matching on the `Except` value.
* SHA-256 is implemented concretely (below), so every identifier the source
  derives by hashing (`utxo_id`, `tx_id`, coordinate hashes, Merkle parents)
  is computed bit-for-bit as in the source.
* `FractalCoordinate` defines `__eq__` without `__hash__`, so its instances
  are unhashable and its `@lru_cache`-wrapped methods (`to_cartesian`,
  `get_hash`) raise `TypeError` on every call.  Source call sites of those
  methods are modelled through wrapped, always-failing forms
  (`FractalCoordinate.toCartesian`, `FractalCoordinate.getHashCached`);
  attribute values the claims' granted states already carry (`utxo_id`,
  `tx_id`) are expressed through the decorated functions' bodies.
-/

/-! ## SHA-256

A direct implementation of FIPS 180-4 SHA-256 over byte lists, with 32-bit
words represented as natural numbers reduced mod `2^32`. -/

namespace Sha256

/-- Reduce to a 32-bit word. -/
def w32 (n : ℕ) : ℕ := n % 4294967296

/-- Right rotation of a 32-bit word by `k` (for `0 ≤ k < 32`). -/
def rotr (n k : ℕ) : ℕ := n / 2 ^ k + n % 2 ^ k * 2 ^ (32 - k) % 4294967296

/-- Logical right shift. -/
def shr (n k : ℕ) : ℕ := n / 2 ^ k

/-- The SHA-256 round constants. -/
def kConsts : List ℕ :=
  [1116352408, 1899447441, 3049323471, 3921009573,
   961987163, 1508970993, 2453635748, 2870763221,
   3624381080, 310598401, 607225278, 1426881987,
   1925078388, 2162078206, 2614888103, 3248222580,
   3835390401, 4022224774, 264347078, 604807628,
   770255983, 1249150122, 1555081692, 1996064986,
   2554220882, 2821834349, 2952996808, 3210313671,
   3336571891, 3584528711, 113926993, 338241895,
   666307205, 773529912, 1294757372, 1396182291,
   1695183700, 1986661051, 2177026350, 2456956037,
   2730485921, 2820302411, 3259730800, 3345764771,
   3516065817, 3600352804, 4094571909, 275423344,
   430227734, 506948616, 659060556, 883997877,
   958139571, 1322822218, 1537002063, 1747873779,
   1955562222, 2024104815, 2227730452, 2361852424,
   2428436474, 2756734187, 3204031479, 3329325298]

/-- The eight-word SHA-256 state. -/
structure St where
  a : ℕ
  b : ℕ
  c : ℕ
  d : ℕ
  e : ℕ
  f : ℕ
  g : ℕ
  h : ℕ

/-- The SHA-256 initial hash value. -/
def initSt : St :=
  ⟨1779033703, 3144134277, 1013904242, 2773480762,
   1359893119, 2600822924, 528734635, 1541459225⟩

/-- One compression round with round constant `k` and schedule word `w`. -/
def round (s : St) (k w : ℕ) : St :=
  let s1 := (rotr s.e 6) ^^^ (rotr s.e 11) ^^^ (rotr s.e 25)
  let ch := (s.e &&& s.f) ^^^ ((4294967295 - s.e) &&& s.g)
  let t1 := w32 (s.h + s1 + ch + k + w)
  let s0 := (rotr s.a 2) ^^^ (rotr s.a 13) ^^^ (rotr s.a 22)
  let maj := (s.a &&& s.b) ^^^ (s.a &&& s.c) ^^^ (s.b &&& s.c)
  let t2 := w32 (s0 + maj)
  ⟨w32 (t1 + t2), s.a, s.b, s.c, w32 (s.d + t1), s.e, s.f, s.g⟩

/-- Extend a (reversed) message schedule until it holds `n` more words.
The head of the list is the most recent word. -/
def extend : ℕ → List ℕ → List ℕ
  | 0, acc => acc
  | n + 1, acc =>
      let s0w := acc.getD 14 0
      let s1w := acc.getD 1 0
      let s0 := (rotr s0w 7) ^^^ (rotr s0w 18) ^^^ (shr s0w 3)
      let s1 := (rotr s1w 17) ^^^ (rotr s1w 19) ^^^ (shr s1w 10)
      extend n (w32 (acc.getD 15 0 + s0 + acc.getD 6 0 + s1) :: acc)

/-- Full 64-word message schedule from a 16-word block. -/
def schedule (block : List ℕ) : List ℕ :=
  (extend 48 block.reverse).reverse

/-- Compress one 16-word block into the running state. -/
def compress (s : St) (block : List ℕ) : St :=
  let f := (List.zip kConsts (schedule block)).foldl
    (fun st kw => round st kw.1 kw.2) s
  ⟨w32 (s.a + f.a), w32 (s.b + f.b), w32 (s.c + f.c), w32 (s.d + f.d),
   w32 (s.e + f.e), w32 (s.f + f.f), w32 (s.g + f.g), w32 (s.h + f.h)⟩

/-- Big-endian bytes of `n`, `k` bytes wide. -/
def beBytes : ℕ → ℕ → List ℕ
  | 0, _ => []
  | k + 1, n => beBytes k (n / 256) ++ [n % 256]

/-- Combine four big-endian bytes into a 32-bit word. -/
def wordOfBytes (bs : List ℕ) : ℕ :=
  bs.foldl (fun acc b => acc * 256 + b) 0

/-- Split a list into chunks of `k` elements (`k > 0`; the final chunk may be
short).  Structural recursion on a fuel count so that the kernel can
evaluate it. -/
def chunksGo (k : ℕ) : ℕ → List α → List (List α)
  | 0, _ => []
  | _ + 1, [] => []
  | fuel + 1, l => l.take k :: chunksGo k fuel (l.drop k)

/-- Split a list into chunks of `k` elements. -/
def chunks (k : ℕ) (l : List α) : List (List α) := chunksGo k l.length l

/-- SHA-256 padding: append `0x80`, zeros to 56 mod 64, then the bit length
as eight big-endian bytes. -/
def pad (msg : List ℕ) : List ℕ :=
  let len := msg.length
  let zeros := (119 - (len + 1) % 64) % 64
  msg ++ [0x80] ++ List.replicate zeros 0 ++ beBytes 8 (len * 8)

/-- SHA-256 digest (32 bytes) of a byte list. -/
def digest (msg : List ℕ) : List ℕ :=
  let blocks := chunks 16 ((chunks 4 (pad msg)).map wordOfBytes)
  let s := blocks.foldl compress initSt
  beBytes 4 s.a ++ beBytes 4 s.b ++ beBytes 4 s.c ++ beBytes 4 s.d ++
  beBytes 4 s.e ++ beBytes 4 s.f ++ beBytes 4 s.g ++ beBytes 4 s.h

end Sha256

/-! ## Strings, UTF-8 and hex -/

/-- Lowercase hex digit for `n < 16`. -/
def hexDigit (n : ℕ) : Char :=
  match n with
  | 0 => '0' | 1 => '1' | 2 => '2' | 3 => '3' | 4 => '4' | 5 => '5' | 6 => '6'
  | 7 => '7' | 8 => '8' | 9 => '9' | 10 => 'a' | 11 => 'b' | 12 => 'c'
  | 13 => 'd' | 14 => 'e' | _ => 'f'

/-- Two lowercase hex digits of a byte. -/
def hexByte (b : ℕ) : List Char := [hexDigit (b / 16), hexDigit (b % 16)]

/-- Lowercase hex string of a byte list. -/
def hexOfBytes (bs : List ℕ) : String := ⟨bs.flatMap hexByte⟩

/-- UTF-8 encoding of one code point (as Python `str.encode("utf-8")`). -/
def utf8Char (n : ℕ) : List ℕ :=
  if n < 128 then [n]
  else if n < 2048 then [192 + n / 64, 128 + n % 64]
  else if n < 65536 then [224 + n / 4096, 128 + n / 64 % 64, 128 + n % 64]
  else [240 + n / 262144, 128 + n / 4096 % 64, 128 + n / 64 % 64, 128 + n % 64]

/-- UTF-8 bytes of a string. -/
def utf8Bytes (s : String) : List ℕ := s.data.flatMap (fun c => utf8Char c.toNat)

/-- `hashlib.sha256(s.encode("utf-8")).hexdigest()`. -/
def sha256Hex (s : String) : String := hexOfBytes (Sha256.digest (utf8Bytes s))

/-- Value of one hex digit, as accepted by Python `int(·, 16)`. -/
def hexVal (c : Char) : Option ℕ :=
  if 48 ≤ c.toNat ∧ c.toNat ≤ 57 then some (c.toNat - 48)
  else if 97 ≤ c.toNat ∧ c.toNat ≤ 102 then some (c.toNat - 87)
  else if 65 ≤ c.toNat ∧ c.toNat ≤ 70 then some (c.toNat - 55)
  else none

/-- Python `int(s, 16)` on plain hex strings: `none` models a raised
`ValueError` (empty string or non-hex character). -/
def hexToNat (s : String) : Option ℕ :=
  if s.data.isEmpty then none
  else s.data.foldl
    (fun acc c => match acc, hexVal c with
      | some a, some v => some (a * 16 + v)
      | _, _ => none)
    (some 0)

/-! ## Generic Python-container helpers

Python `dict`s preserve insertion order; assignment to an existing key keeps
its position.  `list.remove` drops the first occurrence and raises when the
element is absent. -/

/-- Python `d.get(k)` on an insertion-ordered dict. -/
def dictGet [DecidableEq K] (d : List (K × V)) (k : K) : Option V :=
  (d.find? (fun p => p.1 = k)).map (·.2)

/-- Python `d[k] = v`: update in place, or append a new key. -/
def dictSet [DecidableEq K] : List (K × V) → K → V → List (K × V)
  | [], k, v => [(k, v)]
  | (k', v') :: rest, k, v =>
      if k' = k then (k', v) :: rest else (k', v') :: dictSet rest k v

/-- Python `del d[k]` / `d.pop(k, None)`: drop the key if present. -/
def dictDel [DecidableEq K] : List (K × V) → K → List (K × V)
  | [], _ => []
  | (k', v') :: rest, k =>
      if k' = k then rest else (k', v') :: dictDel rest k

/-- Python `lst.remove(x)`: `none` models the `ValueError` raised when `x`
is absent. -/
def listRemove [DecidableEq α] : List α → α → Option (List α)
  | [], _ => none
  | a :: as, x => if a = x then some as else (listRemove as x).map (a :: ·)

/-- Membership in a Python set modelled as a deduplicating list;
`setAdd` is `s.add(x)`. -/
def setAdd [DecidableEq α] (s : List α) (x : α) : List α :=
  if x ∈ s then s else s ++ [x]

/-- Prefix test on character lists. -/
def chStarts : List Char → List Char → Bool
  | [], _ => true
  | _ :: _, [] => false
  | a :: as, b :: bs => a = b && chStarts as bs

/-- Substring test on character lists (`pattern`, `text`). -/
def chContains (pat : List Char) : List Char → Bool
  | [] => chStarts pat []
  | c :: rest => chStarts pat (c :: rest) || chContains pat rest

/-- Python `pat in text` on strings. -/
def strContains (text pat : String) : Bool := chContains pat.data text.data

/-- Python `text.startswith(pat)`. -/
def strStarts (text pat : String) : Bool := chStarts pat.data text.data

/-- Python `int(·)` truncation of a rational toward zero. -/
def pyTrunc (q : ℚ) : ℤ := if 0 ≤ q then ⌊q⌋ else -⌊-q⌋

/-! ## `legacy_coordinate.coordinate` — `FractalCoordinate`

Positions in the Sierpinski-triangle coordinate system.  The Cartesian
embedding of the source computes with floats starting from the centroid
`(0.5, √3/6)`; every `y` value it produces is a rational multiple of `√3`,
so `toCartesianQ` returns the exact pair `(x, y/√3)` as rationals.

A defect of the class shapes much of what follows: `FractalCoordinate`
defines `__eq__` without defining `__hash__`, so Python 3 sets
`__hash__ = None` and instances are unhashable, while `to_cartesian` and
`get_hash` are `@lru_cache`-decorated methods.  The cache wrapper keys
every call by `hash(self)` before the body runs, so **every** call of
those two methods raises `TypeError: unhashable type:
'FractalCoordinate'`.  The embedding keeps both levels: `toCartesianQ` and
`getHash` are the decorated functions' bodies (the values the code means
to compute), and `toCartesian` / `getHashCached` are the decorated methods
as actually callable, which always return the `TypeError` message.
Call sites in the source are modelled through the wrapped forms; values
the claims' granted states already carry (`utxo_id`, `tx_id` — attributes
of objects the claims presuppose to exist) are expressed through the
bodies. -/

structure FractalCoordinate where
  depth : ℕ
  path : List ℕ
deriving DecidableEq, Repr

namespace FractalCoordinate

/-- The constructor checks of `FractalCoordinate.__init__`: depth is
non-negative (by the `ℕ` type), the path length equals the depth, and every
path element is 0, 1 or 2. -/
def wf (c : FractalCoordinate) : Prop :=
  c.path.length = c.depth ∧ ∀ d ∈ c.path, d ≤ 2

instance (c : FractalCoordinate) : Decidable c.wf := by
  unfold wf; infer_instance

/-- `get_shard_id`: first path digit, or 0 at the root.  (On an ill-formed
coordinate with positive depth and empty path Python would raise; such
values cannot be constructed, and the default 0 is never exercised under
`wf`.) -/
def getShardId (c : FractalCoordinate) : ℕ :=
  if 0 < c.depth then c.path.headD 0 else 0

/-- `get_parent`: the root is its own parent; otherwise trim the last path
digit. -/
def getParent (c : FractalCoordinate) : FractalCoordinate :=
  if c.depth = 0 then c else ⟨c.depth - 1, c.path.dropLast⟩

/-- `get_children`: append each of 0, 1, 2 to the path. -/
def getChildren (c : FractalCoordinate) : List FractalCoordinate :=
  [⟨c.depth + 1, c.path ++ [0]⟩, ⟨c.depth + 1, c.path ++ [1]⟩,
   ⟨c.depth + 1, c.path ++ [2]⟩]

/-- The body of `get_hash`: SHA-256 of `"<depth>:<d0>,<d1>,…"`.  This is
the value the method means to compute; the decorated method itself is
`getHashCached` below and never reaches this body. -/
def getHash (c : FractalCoordinate) : String :=
  sha256Hex (toString c.depth ++ ":" ++ ",".intercalate (c.path.map toString))

/-- The loop of `to_cartesian`.  The second component is the coefficient of
`√3` in the `y` coordinate.  A digit outside {0, 1, 2} falls through the
`if/elif` chain leaving the point unchanged (but the scale still halved),
exactly as in the source. -/
def toCartesianGo : List ℕ → ℚ → ℚ → ℚ → ℚ × ℚ
  | [], x, yc, _ => (x, yc)
  | m :: rest, x, yc, scale =>
      let s := scale / 2
      if m = 0 then toCartesianGo rest (x - s / 2) (yc + s * (1 / 4)) s
      else if m = 1 then toCartesianGo rest x (yc + s * (1 / 2)) s
      else if m = 2 then toCartesianGo rest (x + s / 2) (yc + s * (1 / 4)) s
      else toCartesianGo rest x yc s

/-- The body of `to_cartesian`, exactly: the point is `(p.1, p.2 * √3)`
where `p = toCartesianQ c`.  The decorated method itself is `toCartesian`
below and never reaches this body. -/
def toCartesianQ (c : FractalCoordinate) : ℚ × ℚ :=
  toCartesianGo c.path (1 / 2) (1 / 6) 1

/-- `FractalCoordinate.__hash__`: Python 3 sets it to `None` because the
class defines `__eq__` without defining `__hash__`. -/
def hashSlot : Option (FractalCoordinate → ℕ) := none

/-- Python `hash()` on a `FractalCoordinate`: with `__hash__ = None` it
raises `TypeError`. -/
def pyHash (c : FractalCoordinate) : Except String ℕ :=
  match hashSlot with
  | none => .error "unhashable type: 'FractalCoordinate'"
  | some f => .ok (f c)

/-- An `@lru_cache`-decorated zero-argument method of `FractalCoordinate`:
the wrapper keys the cache by hashing the argument tuple — here the
receiver — before the body runs, so the body is reached only when the
receiver is hashable. -/
def lruCached (body : FractalCoordinate → α) (c : FractalCoordinate) :
    Except String α :=
  (pyHash c).map (fun _ => body c)

/-- `to_cartesian()` as actually callable: `@lru_cache` around
`toCartesianQ`; every call raises `TypeError` on the unhashable receiver
(the `try/except` inside the body is never reached). -/
def toCartesian (c : FractalCoordinate) : Except String (ℚ × ℚ) :=
  lruCached toCartesianQ c

/-- `get_hash()` as actually callable: `@lru_cache` around `getHash`;
every call raises `TypeError` on the unhashable receiver. -/
def getHashCached (c : FractalCoordinate) : Except String String :=
  lruCached getHash c

end FractalCoordinate

/-! ## `legacy_utxo.utxo` — `FractalUTXO` -/

structure FractalUTXO where
  owner_address : String
  amount : ℚ
  coordinate : FractalCoordinate
  creation_height : ℤ
  script : String
  contract_state_hash : Option String
  gas_limit : Option ℤ
deriving DecidableEq, Repr

namespace FractalUTXO

/-- Round `q * 10^8` half-to-even, as Python's fixed-point formatting does.
(Python rounds the nearest binary double; the two agree on every decimal
amount used in this development.) -/
def round8 (q : ℚ) : ℤ :=
  let scaled := q * 100000000
  let fl := ⌊scaled⌋
  let frac := scaled - fl
  if frac < 1 / 2 then fl
  else if 1 / 2 < frac then fl + 1
  else if fl % 2 = 0 then fl else fl + 1

/-- Pad a numeral string with leading zeros to width `k`. -/
def pad0 (k : ℕ) (s : String) : String :=
  ⟨List.replicate (k - s.length) '0' ++ s.data⟩

/-- Python `f"{amount:.8f}"`. -/
def fmt8 (q : ℚ) : String :=
  let r := round8 q
  let a := r.natAbs
  (if r < 0 then "-" else "") ++ toString (a / 100000000) ++ "." ++
    pad0 8 (toString (a % 100000000))

/-- The value `compute_id`'s body denotes: SHA-256 over the `|`-joined
fields.  `str(gas_limit or 0)` maps both `None` and `0` to `0`.  In the
running source `compute_id` calls the `@lru_cache`-wrapped
`coordinate.get_hash()` and therefore always raises (see `mk'`); the
claims' granted states carry `utxo_id` attributes, expressed by this
body-level value. -/
def computeId (u : FractalUTXO) : String :=
  let parts := [u.owner_address, fmt8 u.amount, u.script,
    u.coordinate.getHash, toString u.creation_height]
  let parts := match u.contract_state_hash with
    | some csh =>
        parts ++ [csh,
          toString (match u.gas_limit with
            | none => (0 : ℤ)
            | some g => g)]
    | none => parts
  sha256Hex ("|".intercalate parts)

/-- The `utxo_id` attribute a granted UTXO carries, the value the
constructor's `compute_id` call means to assign. -/
def utxoId (u : FractalUTXO) : String := computeId u

/-- `shard_affinity`, derived from the coordinate. -/
def shardAffinity (u : FractalUTXO) : ℕ := u.coordinate.getShardId

/-- `can_spend_with`: substring dispatch on the script; signature checking
is a placeholder returning `True` in the source. -/
def canSpendWith (u : FractalUTXO) (signature public_key : String) : Bool :=
  if strContains u.script "OP_RETURN" then false
  else if strContains u.script "OP_CONTRACTCALL" then true
  else true

/-- `FractalUTXO.__init__`: positive amount and, for `OP_CONTRACTCALL:`
scripts, a truthy state hash and gas limit (Python falsiness: `None` and
`""`, respectively `None` and `0`, are rejected).  After the checks the
constructor assigns `self.utxo_id = self.compute_id()`, whose call of the
`@lru_cache`-wrapped `coordinate.get_hash()` raises on the unhashable
receiver; `compute_id`'s handler rewraps the `TypeError`, so the
constructor never returns an object. -/
def mk' (owner : String) (amount : ℚ) (coordinate : FractalCoordinate)
    (creation_height : ℤ) (script : String) (csh : Option String)
    (gas : Option ℤ) : Except String FractalUTXO :=
  if amount ≤ 0 then .error "UTXO amount must be positive"
  else if strStarts script "OP_CONTRACTCALL:" ∧ (csh = none ∨ csh = some "") then
    .error "contract_state_hash required for OP_CONTRACTCALL"
  else if strStarts script "OP_CONTRACTCALL:" ∧ (gas = none ∨ gas = some 0) then
    .error "gas_limit required for OP_CONTRACTCALL"
  else match coordinate.getHashCached with
    | .error e => .error ("Error computing UTXO ID: " ++ e)
    | .ok _ => .ok ⟨owner, amount, coordinate, creation_height, script, csh,
        gas⟩

end FractalUTXO

/-! ## `legacy_utxo.indexer` — `UTXOSpatialIndexer`

The scipy KD-tree import is environment-dependent; this embedding models the
grid fallback (`KDTree = None`), under which no statement of `insert` or
`remove` can raise.  Cartesian points are exact rationals. -/

structure GridCell where
  points : List (String × (ℚ × ℚ))
deriving DecidableEq, Repr

structure UTXOSpatialIndexer where
  points : List (ℚ × ℚ)
  ids : List String
  grid : List ((ℤ × ℤ) × GridCell)
  grid_size : ℚ
deriving DecidableEq, Repr

namespace UTXOSpatialIndexer

/-- A fresh indexer (`grid_size` defaults to 0.1 in the source). -/
def init (grid_size : ℚ) : UTXOSpatialIndexer := ⟨[], [], [], grid_size⟩

/-- `_get_grid_cell`: `int(x / grid_size)` truncates toward zero. -/
def getGridCell (ix : UTXOSpatialIndexer) (p : ℚ × ℚ) : ℤ × ℤ :=
  (pyTrunc (p.1 / ix.grid_size), pyTrunc (p.2 / ix.grid_size))

/-- `insert`: append to the parallel lists and file the point in its grid
cell.  With the KD-tree unavailable no exception is possible, so the
rollback branch of the source is unreachable. -/
def insert (ix : UTXOSpatialIndexer) (utxo_id : String) (coord : ℚ × ℚ) :
    Except String UTXOSpatialIndexer :=
  let cell_idx := ix.getGridCell coord
  let cell := (dictGet ix.grid cell_idx).getD ⟨[]⟩
  .ok { ix with
    ids := ix.ids ++ [utxo_id]
    points := ix.points ++ [coord]
    grid := dictSet ix.grid cell_idx ⟨dictSet cell.points utxo_id coord⟩ }

/-- `remove`: despite its docstring, the source raises nothing when the id
is absent — the `if utxo_id in self._ids` guard skips the list removal, the
grid uses `pop(utxo_id, None)`, and the KD-tree branch is inactive, so the
call returns normally. -/
def remove (ix : UTXOSpatialIndexer) (utxo_id : String) (coord : ℚ × ℚ) :
    Except String UTXOSpatialIndexer :=
  let ix :=
    if utxo_id ∈ ix.ids then
      let idx := ix.ids.indexOf utxo_id
      { ix with ids := ix.ids.eraseIdx idx, points := ix.points.eraseIdx idx }
    else ix
  let cell_idx := ix.getGridCell coord
  let ix :=
    match dictGet ix.grid cell_idx with
    | some cell =>
        let pts := dictDel cell.points utxo_id
        if pts.isEmpty then { ix with grid := dictDel ix.grid cell_idx }
        else { ix with grid := dictSet ix.grid cell_idx ⟨pts⟩ }
    | none => ix
  .ok ix

end UTXOSpatialIndexer

/-! ## `legacy_utxo.storage` — `UTXOStorage`

The spatial index never influences the `utxo_id → UTXO` mapping or the
control flow of `add_utxo`/`remove_utxo` (its operations cannot raise in the
grid-fallback model), so the storage carries the main map and the shard
index; the claims under verification quantify over the mapping. -/

structure UTXOStorage where
  utxos : List (String × FractalUTXO)
  shard_indices : List (ℕ × List String)
deriving DecidableEq, Repr

namespace UTXOStorage

def empty : UTXOStorage := ⟨[], []⟩

/-- `get_utxo`. -/
def getUtxo (s : UTXOStorage) (utxo_id : String) : Option FractalUTXO :=
  dictGet s.utxos utxo_id

/-- `add_utxo`: reject duplicate ids, then (inside a `try`) insert into the
main map, update the spatial index from `coordinate.to_cartesian()`, and
extend the shard index.  The `to_cartesian` call always raises on the
unhashable coordinate (storage.py:45); the handler's rollback pops the
just-inserted entry — undoing the only mutation made — and then itself
reads the never-assigned `(x, y)`, so the call raises (an
`UnboundLocalError`; its exact message is version-dependent and no theorem
depends on it) with the store unchanged.  `add_utxo` never succeeds. -/
def addUtxo (s : UTXOStorage) (u : FractalUTXO) : Except String UTXOStorage :=
  let uid := u.utxoId
  if (dictGet s.utxos uid).isSome then
    .error ("UTXO " ++ uid ++ " already exists")
  else
    match u.coordinate.toCartesian with
    | .error _ =>
        .error "cannot access local variable 'x' where it is not associated with a value"
    | .ok _ =>
        let shard := u.shardAffinity
        let lst := (dictGet s.shard_indices shard).getD []
        .ok ⟨dictSet s.utxos uid u,
          dictSet s.shard_indices shard (lst ++ [uid])⟩

/-- `remove_utxo`: unknown ids raise `"UTXO … not found"`; for a present id
the `try` block first calls `utxo.coordinate.to_cartesian()` for the
spatial index (storage.py:78), which always raises on the unhashable
coordinate, so the handler reports `"Error removing UTXO: unhashable
type: 'FractalCoordinate'"` with nothing yet deleted.  The shard-index and
main-map removals that follow are unreachable (kept here as written). -/
def removeUtxo (s : UTXOStorage) (utxo_id : String) :
    Except String UTXOStorage :=
  match dictGet s.utxos utxo_id with
  | none => .error ("UTXO " ++ utxo_id ++ " not found")
  | some u =>
      match u.coordinate.toCartesian with
      | .error e => .error ("Error removing UTXO: " ++ e)
      | .ok _ =>
          let shard := u.shardAffinity
          match dictGet s.shard_indices shard with
          | some lst =>
              match listRemove lst utxo_id with
              | none =>
                  .error "Error removing UTXO: list.remove(x): x not in list"
              | some lst' =>
                  let si := if lst'.isEmpty then dictDel s.shard_indices shard
                    else dictSet s.shard_indices shard lst'
                  .ok ⟨dictDel s.utxos utxo_id, si⟩
          | none => .ok ⟨dictDel s.utxos utxo_id, s.shard_indices⟩

end UTXOStorage

/-- Stable insertion sort (Python `list.sort` is stable): an element is
placed before the first element it compares `le` to, and after every
earlier-listed element with an equal key. -/
def insertLe (le : α → α → Bool) (x : α) : List α → List α
  | [] => [x]
  | y :: ys => if le x y then x :: y :: ys else y :: insertLe le x ys

/-- Stable sort by `le`. -/
def stableSort (le : α → α → Bool) : List α → List α
  | [] => []
  | x :: xs => insertLe le x (stableSort le xs)

/-! ## `legacy_transaction.transaction`

`timestamp` is set by the Python constructor from the wall clock; it is a
plain field here, standing for the construction-time clock reading. -/

structure TransactionInput where
  utxo_id : String
  signature : String
  public_key : String
deriving DecidableEq, Repr

structure TransactionOutput where
  owner_address : String
  amount : ℚ
  coordinate : FractalCoordinate
  script : String
  contract_state_hash : Option String
  gas_limit : Option ℤ
deriving DecidableEq, Repr

structure FractalTransaction where
  inputs : List TransactionInput
  outputs : List TransactionOutput
  timestamp : ℤ
  nonce : ℤ
deriving DecidableEq, Repr

/-- Python `str(float)` for the dyadic-decimal rationals hashed by this
development: integers render as `"n.0"`, terminating decimals with their
minimal digits, matching the shortest round-trip representation of the
equal binary double.  Rationals whose denominator is not of the form
`2^a·5^b` are not exactly representable as doubles and never arise here;
they render as a fraction marker. -/
def pyFloatStr (q : ℚ) : String :=
  let powOf : ℕ → ℕ → ℕ → ℕ := fun p =>
    Nat.rec (motive := fun _ => ℕ → ℕ) (fun _ => 0)
      (fun _ ih n => if n % p = 0 ∧ 2 ≤ n then 1 + ih (n / p) else 0)
  let a := powOf 2 64 q.den
  let b := powOf 5 64 q.den
  if 2 ^ a * 5 ^ b = q.den then
    let k := max a b
    let scaled := (q * 10 ^ k).num
    let n := scaled.natAbs
    let sign := if scaled < 0 then "-" else ""
    if k = 0 then sign ++ toString n ++ ".0"
    else sign ++ toString (n / 10 ^ k) ++ "." ++
      FractalUTXO.pad0 k (toString (n % 10 ^ k))
  else toString q.num ++ "/" ++ toString q.den

namespace FractalTransaction

/-- `compute_id`: SHA-256 of
`inputs|outputs|timestamp|nonce` with outputs rendered as
`owner:amount:coord_hash` triples. -/
def computeId (tx : FractalTransaction) : String :=
  let input_str := "|".intercalate (tx.inputs.map (·.utxo_id))
  let output_str := "|".intercalate (tx.outputs.map (fun o =>
    o.owner_address ++ ":" ++ pyFloatStr o.amount ++ ":" ++ o.coordinate.getHash))
  sha256Hex (input_str ++ "|" ++ output_str ++ "|" ++ toString tx.timestamp ++
    "|" ++ toString tx.nonce)

/-- `tx_id`, assigned by the constructor from `compute_id`. -/
def txId (tx : FractalTransaction) : String := computeId tx

/-- `cross_shard`: more than one distinct output shard. -/
def crossShard (tx : FractalTransaction) : Bool :=
  1 < ((tx.outputs.map (fun o => o.coordinate.getShardId)).dedup).length

/-- The constructor checks of `FractalTransaction.__init__` and
`TransactionOutput.__init__`: at least one input, at least one output, and
every output amount positive. -/
def wf (tx : FractalTransaction) : Prop :=
  tx.inputs ≠ [] ∧ tx.outputs ≠ [] ∧ ∀ o ∈ tx.outputs, 0 < o.amount

instance (tx : FractalTransaction) : Decidable tx.wf := by
  unfold wf; infer_instance

/-- The input loop of `validate`: resolve each input, check mempool
double-spends and the signature, and accumulate the input sum.  The mempool
collaborator is its `is_utxo_spent` predicate. -/
def validateInputs (storage : UTXOStorage) (mempool : Option (String → Bool)) :
    List TransactionInput → ℚ → Except String ℚ
  | [], acc => .ok acc
  | i :: rest, acc =>
      match storage.getUtxo i.utxo_id with
      | none => .error ("Input UTXO " ++ i.utxo_id ++ " not found")
      | some u =>
          if (match mempool with
              | some spent => spent i.utxo_id
              | none => false) then
            .error ("Input UTXO " ++ i.utxo_id ++ " already spent in mempool")
          else if ¬ u.canSpendWith i.signature i.public_key then
            .error ("Invalid signature for UTXO " ++ i.utxo_id)
          else validateInputs storage mempool rest (acc + u.amount)

/-- The contract-output loop of `validate` (Python falsiness for the state
hash; gas limit must be present and positive). -/
def checkContractOutputs : List TransactionOutput → Option String
  | [] => none
  | o :: rest =>
      if strStarts o.script "OP_CONTRACTCALL:" then
        if o.contract_state_hash = none ∨ o.contract_state_hash = some "" then
          some "Missing contract state hash"
        else if (match o.gas_limit with | none => true | some g => g ≤ 0) then
          some "Invalid gas limit"
        else checkContractOutputs rest
      else checkContractOutputs rest

/-- `validate`: returns `(is_valid, error_message)`.  The final cross-shard
branch of the source builds Python `set`s of the input and output
coordinates (transaction.py: `{utxo.coordinate for utxo in input_utxos}`);
a cross-shard transaction has at least two outputs, so the first insertion
hashes an unhashable `FractalCoordinate` and the outer handler reports the
`TypeError` — every cross-shard transaction fails validation here. -/
def validate (tx : FractalTransaction) (storage : UTXOStorage)
    (current_height : ℤ) (mempool : Option (String → Bool)) :
    Bool × Option String :=
  match validateInputs storage mempool tx.inputs 0 with
  | .error e => (false, some e)
  | .ok input_sum =>
      let output_sum := (tx.outputs.map (·.amount)).sum
      if input_sum < output_sum then
        (false, some "Output amount exceeds input amount")
      else match checkContractOutputs tx.outputs with
        | some e => (false, some e)
        | none =>
            if tx.crossShard then
              (false,
                some "Validation error: unhashable type: 'FractalCoordinate'")
            else (true, none)

/-- The output loop of `execute`: build the new UTXOs through the
constructor; a constructor error is caught by the source's handler.  Since
the constructor always raises (see `FractalUTXO.mk'`), the loop errors on
its first output — `execute` never creates a UTXO. -/
def buildOutputs (current_height : ℤ) :
    List TransactionOutput → Except String (List FractalUTXO)
  | [] => .ok []
  | o :: rest =>
      match FractalUTXO.mk' o.owner_address o.amount o.coordinate
        current_height o.script o.contract_state_hash o.gas_limit with
      | .error e => .error e
      | .ok u => (buildOutputs current_height rest).map (u :: ·)

/-- `execute`: validate (without a mempool), then create one UTXO per
output at `creation_height = current_height`.  The store is not mutated;
the creation loop always fails at its first constructor call. -/
def execute (tx : FractalTransaction) (storage : UTXOStorage)
    (current_height : ℤ) : Bool × Option String × List FractalUTXO :=
  match validate tx storage current_height none with
  | (false, e) => (false, e, [])
  | (true, _) =>
      match buildOutputs current_height tx.outputs with
      | .error e => (false, some ("Execution error: " ++ e), [])
      | .ok us => (true, none, us)

end FractalTransaction

/-! ## `legacy_transaction.mempool`

`MempoolEntry.timestamp` and the serialized-size estimate
`len(str(tx.to_dict()))` depend on the wall clock and on Python `repr`
formatting; they enter as the explicit `now` and `txSize` arguments.  The
size is positive for every Python value (`str` of a dict is never empty). -/

structure MempoolEntry where
  transaction : FractalTransaction
  fee : ℚ
  fee_per_byte : ℚ
  timestamp : ℤ
  in_blocks : List String
deriving DecidableEq, Repr

structure TransactionMempool where
  transactions : List (String × MempoolEntry)
  shard_txs : List (ℕ × List String)
  spent_utxos : List (String × String)
  max_size : ℕ
  min_fee_per_byte : ℚ
deriving DecidableEq, Repr

namespace TransactionMempool

/-- A fresh mempool (source defaults: `max_size=50000`,
`min_fee_per_byte=1e-5`). -/
def init (max_size : ℕ) (min_fee_per_byte : ℚ) : TransactionMempool :=
  ⟨[], [], [], max_size, min_fee_per_byte⟩

/-- `is_utxo_spent`. -/
def isUtxoSpent (mp : TransactionMempool) (utxo_id : String) : Bool :=
  (dictGet mp.spent_utxos utxo_id).isSome

/-- `remove_transaction`: clean the shard indices, the spent-UTXO records
and the main index; unknown ids are a no-op. -/
def removeTransaction (mp : TransactionMempool) (tx_id : String) :
    TransactionMempool :=
  match dictGet mp.transactions tx_id with
  | none => mp
  | some entry =>
      let tx := entry.transaction
      let shard_txs := tx.outputs.foldl (fun st o =>
        let shard := o.coordinate.getShardId
        match dictGet st shard with
        | some s =>
            let s' := s.filter (· ≠ tx_id)
            if s'.isEmpty then dictDel st shard else dictSet st shard s'
        | none => st) mp.shard_txs
      let spent := tx.inputs.foldl (fun sp i => dictDel sp i.utxo_id)
        mp.spent_utxos
      { mp with
        transactions := dictDel mp.transactions tx_id
        shard_txs := shard_txs
        spent_utxos := spent }

/-- The removal loop of `_prune_low_fee_transactions`. -/
def pruneLoop (mp : TransactionMempool) : List MempoolEntry →
    TransactionMempool
  | [] => mp
  | e :: rest =>
      if mp.transactions.length ≤ mp.max_size then mp
      else pruneLoop (mp.removeTransaction e.transaction.txId) rest

/-- `_prune_low_fee_transactions`: a no-op unless the mempool holds
strictly more than `max_size` entries (the guard is `<=`); otherwise remove
entries in ascending fee-rate order until within the limit. -/
def pruneLowFeeTransactions (mp : TransactionMempool) : TransactionMempool :=
  if mp.transactions.length ≤ mp.max_size then mp
  else
    let entries := stableSort (fun a b => a.fee_per_byte ≤ b.fee_per_byte)
      (mp.transactions.map (·.2))
    pruneLoop mp entries

/-- `add_transaction`: reject duplicates, validate (passing this mempool's
`is_utxo_spent`), compute the fee and fee rate, enforce the minimum rate,
and at `max_size` attempt pruning before rejecting with `Mempool full`. -/
def addTransaction (mp : TransactionMempool) (tx : FractalTransaction)
    (storage : UTXOStorage) (current_height : ℤ) (now : ℤ) (txSize : ℕ) :
    (Bool × Option String) × TransactionMempool :=
  if (dictGet mp.transactions tx.txId).isSome then
    ((false, some "Transaction already in mempool"), mp)
  else
    match tx.validate storage current_height (some mp.isUtxoSpent) with
    | (false, e) => ((false, e), mp)
    | (true, _) =>
        let input_sum := tx.inputs.foldl (fun acc i =>
          match storage.getUtxo i.utxo_id with
          | some u => acc + u.amount
          | none => acc) 0
        let output_sum := (tx.outputs.map (·.amount)).sum
        let fee := input_sum - output_sum
        if txSize = 0 then
          ((false, some "Error adding transaction: division by zero"), mp)
        else
          let fee_per_byte := fee / txSize
          if fee_per_byte < mp.min_fee_per_byte then
            ((false, some "Fee rate too low"), mp)
          else
            let afterCap :=
              if mp.max_size ≤ mp.transactions.length then
                some mp.pruneLowFeeTransactions
              else none
            match afterCap with
            | some mp' =>
                if mp'.max_size ≤ mp'.transactions.length then
                  ((false, some "Mempool full"), mp')
                else ((true, none), insertEntry mp' tx fee fee_per_byte now)
            | none => ((true, none), insertEntry mp tx fee fee_per_byte now)
where
  /-- The insertion tail of `add_transaction`: main index, shard indices,
  and spent-UTXO records. -/
  insertEntry (mp : TransactionMempool) (tx : FractalTransaction)
      (fee fee_per_byte : ℚ) (now : ℤ) : TransactionMempool :=
    let entry : MempoolEntry := ⟨tx, fee, fee_per_byte, now, []⟩
    let txs := dictSet mp.transactions tx.txId entry
    let shard_txs := tx.outputs.foldl (fun st o =>
      let shard := o.coordinate.getShardId
      let s := (dictGet st shard).getD []
      dictSet st shard (setAdd s tx.txId)) mp.shard_txs
    let spent := tx.inputs.foldl (fun sp i => dictSet sp i.utxo_id tx.txId)
      mp.spent_utxos
    { mp with
        transactions := txs
        shard_txs := shard_txs
        spent_utxos := spent }

end TransactionMempool

/-! ## `legacy_block.merkle_mesh` -/

inductive MerkleNode where
  | mk (hash : String) (left right : Option MerkleNode)
      (is_cross_shard : Bool) (shard_id : Option ℕ)
      (coordinate : Option FractalCoordinate)

namespace MerkleNode

def hash : MerkleNode → String
  | .mk h _ _ _ _ _ => h

def isCrossShard : MerkleNode → Bool
  | .mk _ _ _ b _ _ => b

def shardId : MerkleNode → Option ℕ
  | .mk _ _ _ _ s _ => s

def coordinate : MerkleNode → Option FractalCoordinate
  | .mk _ _ _ _ _ c => c

/-- A node carrying only a hash, as `_get_parent_level` creates. -/
def plain (h : String) : MerkleNode := .mk h none none false none none

/-- A leaf node, as `add_transaction` creates. -/
def leaf (tx_hash : String) (c : FractalCoordinate) : MerkleNode :=
  .mk tx_hash none none false none (some c)

end MerkleNode

structure MerkleMesh where
  root : Option MerkleNode
  leaves : List MerkleNode
  cross_refs : List (ℕ × List String)

namespace MerkleMesh

def init : MerkleMesh := ⟨none, [], []⟩

/-- `hash_pair`: SHA-256 of `"<left>|<right>"`. -/
def hashPair (left right : String) : String :=
  sha256Hex (left ++ "|" ++ right)

/-- `add_transaction`: append a leaf and record any cross-shard reference
hashes. -/
def addTransaction (m : MerkleMesh) (tx_hash : String)
    (coordinate : FractalCoordinate)
    (cross_shard_refs : Option (List (ℕ × String))) : MerkleMesh :=
  let refs := match cross_shard_refs with
    | none => m.cross_refs
    | some l => l.foldl (fun cr p =>
        dictSet cr p.1 (setAdd ((dictGet cr p.1).getD []) p.2)) m.cross_refs
  { m with
      leaves := m.leaves ++ [.leaf tx_hash coordinate]
      cross_refs := refs }

/-- One level of `build`: pair left-to-right, duplicating an unpaired last
node, and tag a parent cross-shard when both children carry coordinates in
distinct shards (recording the right child's shard). -/
def pairStep : List MerkleNode → List MerkleNode
  | [] => []
  | [l] => [mkParent l l]
  | l :: r :: rest => mkParent l r :: pairStep rest
where
  mkParent (l r : MerkleNode) : MerkleNode :=
    let cross := match l.coordinate, r.coordinate with
      | some lc, some rc => lc.getShardId ≠ rc.getShardId
      | _, _ => false
    .mk (hashPair l.hash r.hash) (some l) (some r) cross
      (if cross then (r.coordinate.map (·.getShardId)) else none) none

/-- The level loop of `build`, with fuel for kernel evaluation (the level
at least halves each step, so `leaves.length` steps always suffice). -/
def buildGo : ℕ → List MerkleNode → Option MerkleNode
  | 0, l => l.head?
  | fuel + 1, l => if l.length ≤ 1 then l.head? else buildGo fuel (pairStep l)

/-- `build`: bottom-up construction; an empty mesh has no root. -/
def build (m : MerkleMesh) : MerkleMesh :=
  if m.leaves.isEmpty then { m with root := none }
  else { m with root := buildGo m.leaves.length m.leaves }

/-- `_get_parent_level`: hash-only parent nodes. -/
def parentLevel : List MerkleNode → List MerkleNode
  | [] => []
  | [l] => [.plain (hashPair l.hash l.hash)]
  | l :: r :: rest => .plain (hashPair l.hash r.hash) :: parentLevel rest

/-- The climb of `get_proof`: record `(sibling_hash, is_left_at_verifier,
shard_tag)` per level.  An unpaired node at an odd-length level is its own
sibling. -/
def proofGo : ℕ → List MerkleNode → ℕ → Option ℕ →
    List (String × Bool × Option ℕ)
  | 0, _, _, _ => []
  | fuel + 1, level, idx, target =>
      if level.length ≤ 1 then []
      else
        let is_left := idx % 2 = 0
        let sib := if is_left then idx + 1 else idx - 1
        let sib := if level.length ≤ sib then idx else sib
        match level.get? sib with
        | none => []
        | some sibling =>
            let tag := if sibling.isCrossShard ∧ sibling.shardId = target
              then sibling.shardId else none
            (sibling.hash, !is_left, tag) ::
              proofGo fuel (parentLevel level) (idx / 2) target

/-- `get_proof`: fails when the mesh is unbuilt or the transaction is not a
leaf. -/
def getProof (m : MerkleMesh) (tx_hash : String) (target_shard : Option ℕ) :
    Except String (List (String × Bool × Option ℕ)) :=
  match m.root with
  | none => .error "Mesh not built"
  | some _ =>
      match m.leaves.findIdx? (fun l => l.hash = tx_hash) with
      | none => .error ("Transaction " ++ tx_hash ++ " not found in mesh")
      | some leaf_idx =>
          .ok (proofGo m.leaves.length m.leaves leaf_idx target_shard)

/-- The fold of `verify_proof`. -/
def foldProof (proof : List (String × Bool × Option ℕ)) (tx_hash : String) :
    String :=
  proof.foldl (fun cur e =>
    if e.2.1 then hashPair e.1 cur else hashPair cur e.1) tx_hash

/-- `verify_proof`: an empty proof never verifies; otherwise fold the path
and compare with the expected root.  A falsy `root_hash` (absent or empty)
falls back to `self.root.hash`, raising when the mesh has no root. -/
def verifyProof (m : MerkleMesh) (tx_hash : String)
    (proof : List (String × Bool × Option ℕ)) (root_hash : Option String) :
    Except String Bool :=
  if proof.isEmpty then .ok false
  else
    let current := foldProof proof tx_hash
    match root_hash with
    | some r =>
        if r ≠ "" then .ok (current = r)
        else match m.root with
          | some n => .ok (current = n.hash)
          | none => .error "'NoneType' object has no attribute 'hash'"
    | none =>
        match m.root with
        | some n => .ok (current = n.hash)
        | none => .error "'NoneType' object has no attribute 'hash'"

/-- `get_root_hash`. -/
def getRootHash (m : MerkleMesh) : Option String := m.root.map (·.hash)

/-! Hash-level images of the mesh operations, used to reason about the
round trip: `pairStep` and `_get_parent_level` build different nodes but
agree on hashes, so proofs go through lists of hashes. -/

/-- Hashes of one pairing level (common image of `pairStep` and
`parentLevel`). -/
def pairH : List String → List String
  | [] => []
  | [l] => [hashPair l l]
  | l :: r :: rest => hashPair l r :: pairH rest

/-- Hash-level image of the `build` loop. -/
def rootH : ℕ → List String → Option String
  | 0, hs => hs.head?
  | fuel + 1, hs => if hs.length ≤ 1 then hs.head? else rootH fuel (pairH hs)

/-- Hash-level image of the `get_proof` climb (the cross-shard tag is
dropped: `verify_proof` ignores it). -/
def proofH : ℕ → List String → ℕ → List (String × Bool)
  | 0, _, _ => []
  | fuel + 1, hs, idx =>
      if hs.length ≤ 1 then []
      else
        let is_left := idx % 2 = 0
        let sib := if is_left then idx + 1 else idx - 1
        let sib := if hs.length ≤ sib then idx else sib
        match hs.get? sib with
        | none => []
        | some h => (h, !is_left) :: proofH fuel (pairH hs) (idx / 2)

/-- Hash-level image of the `verify_proof` fold. -/
def foldH (proof : List (String × Bool)) (tx_hash : String) : String :=
  proof.foldl (fun cur e =>
    if e.2 then hashPair e.1 cur else hashPair cur e.1) tx_hash

end MerkleMesh

/-! ## `legacy_block.proof` — `ProofElement`, `CrossShardProof` -/

structure ProofElement where
  block_hash : String
  merkle_proof : List (String × Bool × Option ℕ)
  shard_id : ℕ
  coordinate : FractalCoordinate
  ref_hashes : List String

structure CrossShardProof where
  tx_hash : String
  elements : List ProofElement
  source_shard : ℕ
  target_shards : List ℕ

/-- Equality of Python sets represented as lists. -/
def setEq [DecidableEq α] (a b : List α) : Bool :=
  a.all (· ∈ b) && b.all (· ∈ a)

namespace CrossShardProof

/-- The per-element loop of `verify`.  Each Merkle proof is checked through
a fresh, unbuilt `MerkleMesh`, so a falsy root in `mesh_roots` raises
inside `verify_proof` and is caught by the outer handler. -/
def verifyElements (p : CrossShardProof) (mesh_roots block_hashes :
    List (ℕ × String)) : List ProofElement → Option String
  | [] => none
  | e :: rest =>
      match dictGet block_hashes e.shard_id with
      | none => some ("Missing block hash for shard " ++ toString e.shard_id)
      | some bh =>
          if e.block_hash ≠ bh then
            some ("Invalid block hash for shard " ++ toString e.shard_id)
          else match dictGet mesh_roots e.shard_id with
            | none =>
                some ("Missing mesh root for shard " ++ toString e.shard_id)
            | some root_hash =>
                match MerkleMesh.init.verifyProof p.tx_hash e.merkle_proof
                  (some root_hash) with
                | .error err => some ("Proof verification error: " ++ err)
                | .ok false =>
                    some ("Invalid Merkle proof for shard " ++
                      toString e.shard_id)
                | .ok true => verifyElements p mesh_roots block_hashes rest

/-- The pairwise shared-reference check of `verify`: every pair of
target-shard elements must share a reference hash. -/
def pairRefCheck (targets : List ℕ) : List ProofElement → Option String
  | [] => none
  | e1 :: rest =>
      if e1.shard_id ∈ targets ∧ rest.any (fun e2 =>
          e2.shard_id ∈ targets ∧ e1.ref_hashes.all (· ∉ e2.ref_hashes)) then
        some "Missing cross-shard references"
      else pairRefCheck targets rest

/-- `verify`: shard coverage, per-element block-hash and Merkle checks, and
the pairwise shared-reference check. -/
def verify (p : CrossShardProof) (mesh_roots block_hashes :
    List (ℕ × String)) : Bool × Option String :=
  let required := p.source_shard :: p.target_shards
  let proof_shards := p.elements.map (·.shard_id)
  if ¬ setEq proof_shards required then
    (false, some "Missing proof elements for some shards")
  else match verifyElements p mesh_roots block_hashes p.elements with
    | some e => (false, some e)
    | none =>
        match pairRefCheck p.target_shards p.elements with
        | some e => (false, some e)
        | none => (true, none)

end CrossShardProof

/-! ## `legacy_block.block` — `BlockHeader`, `FractalBlock`

`mine` (a nonce search over the header hash) is not embedded: no claim
depends on it, and `verify` never recomputes the header hash — it only
parses the stored `block_hash` field, which `from_dict` restores verbatim.
The cached `self.merkle_mesh` object is recomputed on demand and carries no
state any claim reads, so the block, like its Python dict form, is header,
transactions, proofs and hash. -/

structure BlockHeader where
  version : ℤ
  prev_hash : String
  merkle_mesh_root : String
  timestamp : ℤ
  difficulty : ℤ
  nonce : ℤ
  height : ℤ
  coordinate : FractalCoordinate
  cross_shard_refs : List (ℕ × String)
deriving DecidableEq, Repr

structure FractalBlock where
  header : BlockHeader
  transactions : List FractalTransaction
  cross_shard_proofs : List (String × CrossShardProof)
  block_hash : Option String

namespace FractalBlock

/-- `get_shard_id`. -/
def getShardId (b : FractalBlock) : ℕ := b.header.coordinate.getShardId

/-- The per-transaction loop of `_build_merkle_mesh`: each leaf is the
transaction id at the first output's coordinate (raising on an output-less
transaction).  The cross-reference bookkeeping the source threads into the
mesh here passes coordinate objects where reference hashes are expected; it
never influences the mesh root, leaves or proofs, and is omitted. -/
def meshLeaves : List FractalTransaction →
    Except String (List (String × FractalCoordinate))
  | [] => .ok []
  | tx :: rest =>
      match tx.outputs.head? with
      | none => .error "list index out of range"
      | some o => (meshLeaves rest).map ((tx.txId, o.coordinate) :: ·)

/-- `_build_merkle_mesh`: a fresh mesh over the block's transactions,
built. -/
def buildMerkleMesh (b : FractalBlock) : Except String MerkleMesh :=
  (meshLeaves b.transactions).map (fun ls =>
    (ls.foldl (fun m l => m.addTransaction l.1 l.2 none) MerkleMesh.init).build)

/-- The per-transaction validation loop of `verify`. -/
def verifyTxs (storage : UTXOStorage) (height : ℤ) :
    List FractalTransaction → Option String
  | [] => none
  | tx :: rest =>
      match tx.validate storage height none with
      | (false, e) => some ("Invalid transaction: " ++ e.getD "None")
      | (true, _) => verifyTxs storage height rest

/-- `verify`: proof-of-work on the stored hash, header linkage against the
previous block, per-transaction validation, presence of cross-shard
proofs, and the mesh rebuild.  The rebuild assigns the computed root into
`header.merkle_mesh_root` before the comparison, so the returned block
carries the updated header (and the root comparison can only fail by
failing to build).  Errors raised inside the body surface through the
source's handler as `Verification error: …`. -/
def verify (b : FractalBlock) (prev_block : Option FractalBlock)
    (storage : Option UTXOStorage) : (Bool × Option String) × FractalBlock :=
  match b.block_hash with
  | none => ((false, some "Block not mined"), b)
  | some bh =>
      match hexToNat bh with
      | none =>
          ((false, some
            "Verification error: invalid literal for int() with base 16"), b)
      | some hash_int =>
          if ((2 : ℚ) ^ ((256 : ℤ) - b.header.difficulty) : ℚ) ≤ hash_int then
            ((false, some "Invalid proof-of-work"), b)
          else match (match prev_block with
            | some prev =>
                if b.header.prev_hash ≠ (prev.block_hash.getD "None") then
                  some "Invalid previous block hash"
                else if b.header.height ≠ prev.header.height + 1 then
                  some "Invalid block height"
                else if b.header.timestamp ≤ prev.header.timestamp then
                  some "Invalid timestamp"
                else none
            | none => none) with
          | some e => ((false, some e), b)
          | none =>
              match (match storage with
                | some st => verifyTxs st b.header.height b.transactions
                | none => none) with
              | some e => ((false, some e), b)
              | none =>
                  match b.transactions.find? (fun tx =>
                    tx.crossShard &&
                      (dictGet b.cross_shard_proofs tx.txId).isNone) with
                  | some tx =>
                      ((false, some
                        ("Missing cross-shard proof for " ++ tx.txId)), b)
                  | none =>
                      match b.buildMerkleMesh with
                      | .error e =>
                          ((false, some ("Verification error: " ++ e)), b)
                      | .ok mesh =>
                          match mesh.root with
                          | none =>
                              ((false, some "Failed to build Merkle Mesh"), b)
                          | some root =>
                              let b' := { b with header :=
                                { b.header with
                                    merkle_mesh_root := root.hash } }
                              if root.hash ≠ b'.header.merkle_mesh_root then
                                ((false, some "Invalid Merkle Mesh root"), b')
                              else ((true, none), b')

end FractalBlock

/-- Split a character list at a separator. -/
def chSplit (sep : Char) : List Char → List (List Char)
  | [] => [[]]
  | c :: rest =>
      match chSplit sep rest with
      | [] => [[c]]
      | h :: t => if c = sep then [] :: h :: t else (c :: h) :: t

/-- Python `s.split(sep)` for a one-character separator. -/
def strSplit (s : String) (sep : Char) : List String :=
  (chSplit sep s.data).map (⟨·⟩)

/-! ## `legacy_blockchain.consensus` — `ShardConsensus` -/

structure ShardConsensus where
  shard_id : ℕ
  target_block_time : ℤ
  difficulty_adjustment_window : ℕ
  max_difficulty_change : ℚ
  initial_difficulty : ℤ
  recent_blocks : List (ℤ × ℤ)
deriving DecidableEq, Repr

/-- Python `len(bin(n)[2:])`: the binary digit count, with `bin(0) = "0b0"`
giving one digit for zero. -/
def pyBitLenGo : ℕ → ℕ → ℕ
  | 0, _ => 0
  | fuel + 1, n => if n = 0 then 0 else 1 + pyBitLenGo fuel (n / 2)

/-- Python `len(bin(n)[2:])`. -/
def pyBitLen (n : ℕ) : ℕ := if n = 0 then 1 else pyBitLenGo n n

/-- The MSB-first binary digits of `n` built by the shard-path loop of
`_validate_coordinate` (empty for zero). -/
def shardBitsGo : ℕ → ℕ → List ℕ
  | 0, _ => []
  | fuel + 1, n => if n = 0 then [] else shardBitsGo fuel (n / 2) ++ [n % 2]

/-- The MSB-first binary digits of `n` (empty for zero). -/
def shardBits (n : ℕ) : List ℕ := shardBitsGo n n

namespace ShardConsensus

/-- `_validate_coordinate`: the coordinate's shard must match, the depth
must reach the binary length of the shard id, and the leading path digits
must spell the shard id MSB-first. -/
def validateCoordinate (c : ShardConsensus) (coordinate : FractalCoordinate) :
    Bool :=
  if coordinate.getShardId ≠ c.shard_id then false
  else if coordinate.depth < pyBitLen c.shard_id then false
  else if coordinate.path.take (shardBits c.shard_id).length ≠
      shardBits c.shard_id then false
  else true

/-- `_validate_pow`: the stored block hash, parsed as hex, must be below
`2^(256 - difficulty)`.  `none` models the `ValueError` of `int(·, 16)` on
a malformed hash, caught by `validate_block`'s handler. -/
def validatePow (b : FractalBlock) : Except String Bool :=
  match b.block_hash with
  | none => .ok false
  | some bh =>
      match hexToNat bh with
      | none => .error "invalid literal for int() with base 16"
      | some hash_int =>
          .ok (decide ((hash_int : ℚ) <
            ((2 : ℚ) ^ ((256 : ℤ) - b.header.difficulty) : ℚ)))

/-- `_validate_cross_refs`: each declared reference must name a supplied
block whose hash and mesh root match the `"<mesh_root>|<block_hash>"`
payload; a malformed payload is caught as invalid. -/
def validateCrossRefs (b : FractalBlock)
    (cross_shard_refs : List (ℕ × FractalBlock)) : Bool :=
  b.header.cross_shard_refs.all (fun p =>
    match dictGet cross_shard_refs p.1 with
    | none => false
    | some ref_block =>
        match strSplit p.2 '|' with
        | [mesh_root, block_hash] =>
            (match ref_block.block_hash with
              | some h => block_hash = h
              | none => false) &&
            mesh_root = ref_block.header.merkle_mesh_root
        | _ => false)

/-- `get_next_difficulty`: append the previous block to the sliding window
(mutating the consensus state), return the previous difficulty while the
window is short, otherwise scale it by the clamped ratio of target to
average block time.  Division by a zero time span raises. -/
def getNextDifficulty (c : ShardConsensus) (prev : FractalBlock) :
    Except String ℤ × ShardConsensus :=
  let rb := c.recent_blocks ++ [(prev.header.height, prev.header.timestamp)]
  let rb := rb.drop (rb.length - c.difficulty_adjustment_window)
  let c' := { c with recent_blocks := rb }
  if rb.length < c.difficulty_adjustment_window then
    (.ok prev.header.difficulty, c')
  else
    match rb.head?, rb.getLast? with
    | some first, some last =>
        if c.difficulty_adjustment_window = 1 then
          (.error "division by zero", c')
        else
          let avg : ℚ := (last.2 - first.2 : ℤ) /
            ((c.difficulty_adjustment_window : ℤ) - 1 : ℤ)
          if avg = 0 then (.error "float division by zero", c')
          else
            let adjustment := (c.target_block_time : ℚ) / avg
            let adjustment :=
              if c.max_difficulty_change < adjustment then
                c.max_difficulty_change
              else if adjustment < 1 / c.max_difficulty_change then
                1 / c.max_difficulty_change
              else adjustment
            (.ok (max (pyTrunc ((prev.header.difficulty : ℚ) * adjustment))
              c.initial_difficulty), c')
    | _, _ => (.error "list index out of range", c')

/-- `validate_block` (consensus rules): shard, coordinate, difficulty and
timestamps against the previous block, cross-references, proof-of-work.
The difficulty step mutates the sliding window, so the updated consensus
state is returned alongside the verdict. -/
def validateBlock (c : ShardConsensus) (now : ℤ) (block : FractalBlock)
    (prev_block : Option FractalBlock)
    (cross_shard_refs : Option (List (ℕ × FractalBlock))) :
    (Bool × Option String) × ShardConsensus :=
  if block.getShardId ≠ c.shard_id then
    ((false, some "Block belongs to different shard"), c)
  else if ¬ c.validateCoordinate block.header.coordinate then
    ((false, some "Invalid block coordinate"), c)
  else
    let step : Except String Unit × ShardConsensus :=
      match prev_block with
      | none => (.ok (), c)
      | some prev =>
          match c.getNextDifficulty prev with
          | (.error e, c') =>
              (.error ("Consensus validation error: " ++ e), c')
          | (.ok expected, c') =>
              if block.header.difficulty ≠ expected then
                (.error "Invalid difficulty", c')
              else if block.header.timestamp ≤ prev.header.timestamp then
                (.error "Block timestamp too early", c')
              else if now + 7200 < block.header.timestamp then
                (.error "Block timestamp too far in future", c')
              else (.ok (), c')
    match step with
    | (.error e, c') => ((false, some e), c')
    | (.ok _, c') =>
        if ¬ validateCrossRefs block (cross_shard_refs.getD []) then
          ((false, some "Invalid cross-shard references"), c')
        else match validatePow block with
          | .error e =>
              ((false, some ("Consensus validation error: " ++ e)), c')
          | .ok false => ((false, some "Invalid proof-of-work"), c')
          | .ok true => ((true, none), c')

end ShardConsensus

/-! ## `legacy_blockchain.validator` — `ValidationContext`, `BlockValidator`

The validator object owns references to the shared consensus, UTXO storage
and mempool; its methods are embedded as functions that take and return
those pieces of state explicitly. -/

structure ValidationContext where
  spent_utxos : List String
  created_utxos : List (String × FractalTransaction)
  cross_shard_deps : List (ℕ × List String)
deriving DecidableEq, Repr

namespace BlockValidator

/-- The intra-block double-spend loop of `_validate_transaction`: reject an
input already recorded, otherwise record it (the partial recording on
failure mirrors the source; a failed context is discarded by the caller). -/
def addSpent (spent : List String) : List TransactionInput →
    Option String × List String
  | [] => (none, spent)
  | i :: rest =>
      if i.utxo_id ∈ spent then
        (some ("Double-spend of UTXO " ++ i.utxo_id), spent)
      else addSpent (spent ++ [i.utxo_id]) rest

/-- `_validate_transaction`: semantic validation, intra-block double-spend
tracking, created-UTXO recording under `"tx_id:index"` keys, and
cross-shard proof presence with dependency recording. -/
def validateTransaction (storage : UTXOStorage)
    (mempool : TransactionMempool) (tx : FractalTransaction)
    (block : FractalBlock) (ctx : ValidationContext) :
    (Bool × Option String) × ValidationContext :=
  match tx.validate storage block.header.height (some mempool.isUtxoSpent) with
  | (false, e) => ((false, e), ctx)
  | (true, _) =>
      match addSpent ctx.spent_utxos tx.inputs with
      | (some e, spent) => ((false, some e), { ctx with spent_utxos := spent })
      | (none, spent) =>
          let created := (List.range tx.outputs.length).foldl
            (fun cr i => dictSet cr (tx.txId ++ ":" ++ toString i) tx)
            ctx.created_utxos
          let ctx := { ctx with
            spent_utxos := spent
            created_utxos := created }
          if tx.crossShard then
            match dictGet block.cross_shard_proofs tx.txId with
            | none => ((false, some "Missing cross-shard proof"), ctx)
            | some proof =>
                let deps := proof.target_shards.foldl (fun d shard =>
                  dictSet d shard (setAdd ((dictGet d shard).getD []) tx.txId))
                  ctx.cross_shard_deps
                ((true, none), { ctx with cross_shard_deps := deps })
          else ((true, none), ctx)

/-- The per-transaction reference check inside `_validate_cross_shard_state`:
each recorded tx id must name a block transaction with a proof that
verifies against the maps derived from the header cross-references.  An
out-of-range `split("|")[1]` raises, caught by the outer handler. -/
def checkDepTxs (block : FractalBlock) : List String → Except String Unit
  | [] => .ok ()
  | tx_id :: rest =>
      match block.transactions.find? (fun btx => btx.txId = tx_id) with
      | none => .error ("Missing transaction " ++ tx_id)
      | some _ =>
          match dictGet block.cross_shard_proofs tx_id with
          | none => .error ("Missing proof for " ++ tx_id)
          | some proof =>
              let mesh_roots := block.header.cross_shard_refs.map (fun p =>
                (p.1, (strSplit p.2 '|').headD ""))
              match (block.header.cross_shard_refs.mapM (fun p =>
                ((strSplit p.2 '|').get? 1).map ((p.1, ·)))
                  : Option (List (ℕ × String))) with
              | none =>
                  .error "Cross-shard validation error: list index out of range"
              | some block_hashes =>
                  match proof.verify mesh_roots block_hashes with
                  | (false, e) =>
                      .error ("Invalid cross-shard proof: " ++ e.getD "None")
                  | (true, _) => checkDepTxs block rest

/-- The per-shard loop of `_validate_cross_shard_state`. -/
def checkDeps (block : FractalBlock)
    (cross_shard_refs : List (ℕ × FractalBlock)) :
    List (ℕ × List String) → Except String Unit
  | [] => .ok ()
  | (shard_id, tx_ids) :: rest =>
      match dictGet cross_shard_refs shard_id with
      | none => .error ("Missing reference to shard " ++ toString shard_id)
      | some ref_block =>
          match dictGet block.header.cross_shard_refs shard_id with
          | none =>
              .error ("Missing cross-ref data for shard " ++ toString shard_id)
          | some ref_data =>
              if ref_data = "" then
                .error ("Missing cross-ref data for shard " ++
                  toString shard_id)
              else match strSplit ref_data '|' with
                | [mesh_root, block_hash] =>
                    if (match ref_block.block_hash with
                        | some h => decide (block_hash ≠ h)
                        | none => true) then
                      .error "Cross-ref block hash mismatch"
                    else if mesh_root ≠ ref_block.header.merkle_mesh_root then
                      .error "Cross-ref Merkle root mismatch"
                    else match checkDepTxs block tx_ids with
                      | .error e => .error e
                      | .ok _ => checkDeps block cross_shard_refs rest
                | _ => .error "Invalid cross-ref format"

/-- `_validate_cross_shard_state`. -/
def validateCrossShardState (block : FractalBlock)
    (cross_shard_refs : List (ℕ × FractalBlock)) (ctx : ValidationContext) :
    Bool × Option String :=
  match checkDeps block cross_shard_refs ctx.cross_shard_deps with
  | .error e => (false, some e)
  | .ok _ => (true, none)

/-- The transaction loop of `validate_block`. -/
def validateTxLoop (storage : UTXOStorage) (mempool : TransactionMempool)
    (block : FractalBlock) (ctx : ValidationContext) :
    List FractalTransaction → (Bool × Option String) × ValidationContext
  | [] => ((true, none), ctx)
  | tx :: rest =>
      match validateTransaction storage mempool tx block ctx with
      | ((false, e), ctx') => ((false, e), ctx')
      | ((true, _), ctx') => validateTxLoop storage mempool block ctx' rest

/-- `validate_block`: consensus rules, structural verification, per-
transaction validation, cross-shard state.  Returns the verdict with the
validation context, the mutated consensus window, and the block with the
header-root rewrite performed by `verify`. -/
def validateBlock (consensus : ShardConsensus) (storage : UTXOStorage)
    (mempool : TransactionMempool) (now : ℤ) (block : FractalBlock)
    (prev_block : Option FractalBlock)
    (cross_shard_refs : Option (List (ℕ × FractalBlock))) :
    (Bool × Option String × Option ValidationContext) × ShardConsensus ×
      FractalBlock :=
  match consensus.validateBlock now block prev_block cross_shard_refs with
  | ((false, e), consensus') => ((false, e, none), consensus', block)
  | ((true, _), consensus') =>
      match block.verify prev_block (some storage) with
      | ((false, e), block') => ((false, e, none), consensus', block')
      | ((true, _), block') =>
          match validateTxLoop storage mempool block' ⟨[], [], []⟩
            block'.transactions with
          | ((false, e), _) => ((false, e, none), consensus', block')
          | ((true, _), ctx) =>
              match validateCrossShardState block'
                (cross_shard_refs.getD []) ctx with
              | (false, e) => ((false, e, none), consensus', block')
              | (true, _) => ((true, none, some ctx), consensus', block')

/-- The spent-UTXO removal loop of `apply_block` (an error stops the loop
with the state reached so far, as the source's handler does; since
`remove_utxo` raises before deleting, that state is always the input). -/
def removeSpent (storage : UTXOStorage) : List String →
    Option String × UTXOStorage
  | [] => (none, storage)
  | uid :: rest =>
      match storage.removeUtxo uid with
      | .error e => (some e, storage)
      | .ok st' => removeSpent st' rest

/-- The insertion loop of `apply_block` for one transaction's new UTXOs
(`add_utxo` raises on a duplicate id). -/
def addNew (storage : UTXOStorage) : List FractalUTXO →
    Option String × UTXOStorage
  | [] => (none, storage)
  | u :: rest =>
      match storage.addUtxo u with
      | .error e => (some e, storage)
      | .ok st' => addNew st' rest

/-- The execute-and-insert loop of `apply_block`. -/
def execLoop (height : ℤ) (storage : UTXOStorage) :
    List FractalTransaction → Option String × UTXOStorage
  | [] => (none, storage)
  | tx :: rest =>
      match tx.execute storage height with
      | (false, e, _) =>
          (some ("Failed to execute transaction: " ++ e.getD "None"), storage)
      | (true, _, new_utxos) =>
          match addNew storage new_utxos with
          | (some e, st') => (some ("Block application error: " ++ e), st')
          | (none, st') => execLoop height st' rest

/-- `apply_block`: remove the spent UTXOs, execute each transaction and
insert its outputs, then drop the block's transactions from the mempool.
Failures surface through the source's handler with whatever state the
loops reached — always the input store, since `remove_utxo` and the UTXO
constructor raise before any mutation. -/
def applyBlock (storage : UTXOStorage) (mempool : TransactionMempool)
    (block : FractalBlock) (ctx : ValidationContext) :
    (Bool × Option String) × UTXOStorage × TransactionMempool :=
  match removeSpent storage ctx.spent_utxos with
  | (some e, st') =>
      ((false, some ("Block application error: " ++ e)), st', mempool)
  | (none, st') =>
      match execLoop block.header.height st' block.transactions with
      | (some e, st'') => ((false, some e), st'', mempool)
      | (none, st'') =>
          let mp := block.transactions.foldl
            (fun mp tx => mp.removeTransaction tx.txId) mempool
          ((true, none), st'', mp)

/-- The re-insertion loop of `revert_block`: look each spent input up in
the very store `apply_block` was meant to remove it from, and re-add it
when found (`add_utxo` then raises — on the still-present duplicate id,
and in any case in its spatial-index update). -/
def restoreSpent (storage : UTXOStorage) : List TransactionInput →
    Option String × UTXOStorage
  | [] => (none, storage)
  | i :: rest =>
      match storage.getUtxo i.utxo_id with
      | none => restoreSpent storage rest
      | some u =>
          match storage.addUtxo u with
          | .error e => (some e, storage)
          | .ok st' => restoreSpent st' rest

/-- `revert_block`: remove the UTXOs recorded as created (under their
`"tx_id:index"` context keys), re-instate spent UTXOs, and return the
block's transactions to the mempool.  Failures surface through the
source's handler. -/
def revertBlock (storage : UTXOStorage) (mempool : TransactionMempool)
    (now : ℤ) (txSize : FractalTransaction → ℕ) (block : FractalBlock)
    (ctx : ValidationContext) :
    (Bool × Option String) × UTXOStorage × TransactionMempool :=
  match removeSpent storage (ctx.created_utxos.map (·.1)) with
  | (some e, st') =>
      ((false, some ("Block reversion error: " ++ e)), st', mempool)
  | (none, st') =>
      let rec restoreLoop (st : UTXOStorage) :
          List FractalTransaction → Option String × UTXOStorage
        | [] => (none, st)
        | tx :: rest =>
            match restoreSpent st tx.inputs with
            | (some e, st'') => (some e, st'')
            | (none, st'') => restoreLoop st'' rest
      match restoreLoop st' block.transactions with
      | (some e, st'') =>
          ((false, some ("Block reversion error: " ++ e)), st'', mempool)
      | (none, st'') =>
          let mp := block.transactions.foldl (fun mp tx =>
            (mp.addTransaction tx st'' block.header.height now
              (txSize tx)).2) mempool
          ((true, none), st'', mp)

end BlockValidator

/-! ## `legacy_blockchain.blockchain` — `ChainHead`, `FractalBlockchain`

The chain engine owns the shared storage, mempool and consensus through its
validator; they are fields of the state record here.  `add_block` recurses
through `_process_orphans`; the recursion is driven by an explicit fuel
argument (the recursion is unreachable from any state this development
constructs, and exhausted fuel reports an error without touching state). -/

structure ChainHead where
  block : FractalBlock
  height : ℤ
  total_difficulty : ℤ
  validation_context : ValidationContext

structure FractalBlockchain where
  shard_id : ℕ
  consensus : ShardConsensus
  storage : UTXOStorage
  mempool : TransactionMempool
  blocks : List (String × FractalBlock)
  heads : List (String × ChainHead)
  main_head : Option ChainHead
  orphans : List (String × FractalBlock)
  cross_refs : List (ℕ × List (String × FractalBlock))

namespace FractalBlockchain

/-- The dictionary key a Python block object supplies: its hash string
(`None` cannot occur as a key on any reachable path). -/
def blockKey (b : FractalBlock) : String := b.block_hash.getD "None"

/-- The backward walk of `_reorganize_chain` collecting blocks down to a
height (`blocks[...]` misses raise, caught by `add_block`'s handler). -/
def walkDown (blocks : List (String × FractalBlock)) : ℕ → FractalBlock →
    ℤ → Except String (List FractalBlock × FractalBlock)
  | 0, _, _ => .error "reorganization fuel exhausted"
  | fuel + 1, cur, target_height =>
      if cur.header.height ≤ target_height then .ok ([], cur)
      else match dictGet blocks cur.header.prev_hash with
        | none => .error ("KeyError: " ++ cur.header.prev_hash)
        | some prev =>
            (walkDown blocks fuel prev target_height).map
              (fun r => (cur :: r.1, r.2))

/-- The joint backward walk of `_reorganize_chain` to the common ancestor
once both sides stand at equal height. -/
def walkJoint (blocks : List (String × FractalBlock)) : ℕ → FractalBlock →
    FractalBlock → Except String (List FractalBlock × List FractalBlock)
  | 0, _, _ => .error "reorganization fuel exhausted"
  | fuel + 1, old, new =>
      if blockKey old = blockKey new then .ok ([], [])
      else match dictGet blocks old.header.prev_hash,
        dictGet blocks new.header.prev_hash with
        | some oldPrev, some newPrev =>
            (walkJoint blocks fuel oldPrev newPrev).map
              (fun r => (old :: r.1, r.2 ++ [new]))
        | none, _ => .error ("KeyError: " ++ old.header.prev_hash)
        | _, none => .error ("KeyError: " ++ new.header.prev_hash)

/-- The revert half of `_reorganize_chain` (each block's head is looked up
in `heads`, raising when absent; `revert_block` results are discarded). -/
def revertChain (st : FractalBlockchain) (now : ℤ)
    (txSize : FractalTransaction → ℕ) :
    List FractalBlock → Except String FractalBlockchain
  | [] => .ok st
  | b :: rest =>
      match dictGet st.heads (blockKey b) with
      | none => .error ("KeyError: " ++ blockKey b)
      | some head =>
          let r := BlockValidator.revertBlock st.storage st.mempool now
            txSize b head.validation_context
          revertChain { st with storage := r.2.1, mempool := r.2.2 } now
            txSize rest

/-- The apply half of `_reorganize_chain`. -/
def applyChain (st : FractalBlockchain) :
    List FractalBlock → Except String FractalBlockchain
  | [] => .ok st
  | b :: rest =>
      match dictGet st.heads (blockKey b) with
      | none => .error ("KeyError: " ++ blockKey b)
      | some head =>
          let r := BlockValidator.applyBlock st.storage st.mempool b
            head.validation_context
          applyChain { st with storage := r.2.1, mempool := r.2.2 } rest

/-- `_reorganize_chain`: adopt the head outright when there is no main
head; otherwise walk both tips back to the common ancestor, revert the old
branch top-down, apply the new branch bottom-up, and set `main_head`. -/
def reorganizeChain (st : FractalBlockchain) (now : ℤ)
    (txSize : FractalTransaction → ℕ) (new_head : ChainHead) (fuel : ℕ) :
    Except String FractalBlockchain :=
  match st.main_head with
  | none => .ok { st with main_head := some new_head }
  | some main =>
      match walkDown st.blocks fuel main.block new_head.block.header.height
        with
      | .error e => .error e
      | .ok (old1, old) =>
          match walkDown st.blocks fuel new_head.block old.header.height with
          | .error e => .error e
          | .ok (new1, new) =>
              match walkJoint st.blocks fuel old new with
              | .error e => .error e
              | .ok (old2, new2) =>
                  match revertChain st now txSize (old1 ++ old2) with
                  | .error e => .error e
                  | .ok st' =>
                      match applyChain st' (new2 ++ new1.reverse) with
                      | .error e => .error e
                      | .ok st'' =>
                          .ok { st'' with main_head := some new_head }

/-- `_update_cross_refs`. -/
def updateCrossRefs (st : FractalBlockchain) (block : FractalBlock) :
    FractalBlockchain :=
  { st with cross_refs := block.header.cross_shard_refs.foldl (fun cr p =>
      dictSet cr p.1 (dictSet ((dictGet cr p.1).getD []) (blockKey block)
        block)) st.cross_refs }

end FractalBlockchain

namespace FractalBlockchain

/-- One sweep of the `_process_orphans` loop over a snapshot of the orphan
map: any orphan whose parent is now known is fed back through `add_block`
(`recur`); ids the sweep admits are collected for deletion. -/
def orphanPass
    (recur : FractalBlockchain → FractalBlock →
      (Bool × Option String) × FractalBlockchain)
    (st : FractalBlockchain) (processed : List String) :
    List (String × FractalBlock) →
      FractalBlockchain × List String × Bool
  | [] => (st, processed, false)
  | (prev_hash, orphan) :: rest =>
      if prev_hash ∈ processed then orphanPass recur st processed rest
      else if (dictGet st.blocks prev_hash).isSome then
        match recur st orphan with
        | ((true, _), st') =>
            let r := orphanPass recur st' (setAdd processed prev_hash) rest
            (r.1, r.2.1, true)
        | ((false, _), st') => orphanPass recur st' processed rest
      else orphanPass recur st processed rest

/-- The `while True` sweeps of `_process_orphans`, fueled. -/
def orphanLoop
    (recur : FractalBlockchain → FractalBlock →
      (Bool × Option String) × FractalBlockchain) :
    ℕ → FractalBlockchain → List String → FractalBlockchain × List String
  | 0, st, processed => (st, processed)
  | n + 1, st, processed =>
      match orphanPass recur st processed st.orphans with
      | (st', pr', true) => orphanLoop recur n st' pr'
      | (st', pr', false) => (st', pr')

/-- `_process_orphans`: sweep until no orphan is admitted, then delete the
admitted entries. -/
def processOrphans
    (recur : FractalBlockchain → FractalBlock →
      (Bool × Option String) × FractalBlockchain)
    (fuel : ℕ) (st : FractalBlockchain) : FractalBlockchain :=
  match orphanLoop recur fuel st [] with
  | (st', processed) =>
      { st' with orphans := processed.foldl dictDel st'.orphans }

/-- `add_block`: duplicate no-op, orphan parking, head lookup, validation,
head construction with additive cumulative difficulty, state application,
map insertion, fork choice with reorganization, orphan processing, and
cross-reference indexing.  A reorganization exception surfaces through the
source's outer handler with the state mutated so far. -/
def addBlockGo : ℕ → ℤ → (FractalTransaction → ℕ) → FractalBlockchain →
    FractalBlock → Option (List (ℕ × FractalBlock)) →
    (Bool × Option String) × FractalBlockchain
  | 0, _, _, st, _, _ =>
      ((false, some "Block addition error: recursion limit exceeded"), st)
  | fuel + 1, now, txSize, st, block, cross_shard_refs =>
      if (match block.block_hash with
          | some h => (dictGet st.blocks h).isSome
          | none => false) then ((true, none), st)
      else match dictGet st.blocks block.header.prev_hash with
      | none =>
          ((false, some "Missing parent block"),
            { st with
                orphans := dictSet st.orphans block.header.prev_hash block })
      | some parent =>
          match dictGet st.heads (blockKey parent) with
          | none => ((false, some "Parent not at chain head"), st)
          | some parent_head =>
              match BlockValidator.validateBlock st.consensus st.storage
                st.mempool now block (some parent) cross_shard_refs with
              | ((false, e, _), consensus', _) =>
                  ((false, e), { st with consensus := consensus' })
              | ((true, _, ctxOpt), consensus', block') =>
                  let st := { st with consensus := consensus' }
                  let ctx := ctxOpt.getD ⟨[], [], []⟩
                  let new_head : ChainHead := ⟨block', parent_head.height + 1,
                    parent_head.total_difficulty + block'.header.difficulty,
                    ctx⟩
                  match BlockValidator.applyBlock st.storage st.mempool block'
                    ctx with
                  | ((false, e), storage', mempool') =>
                      ((false, e),
                        { st with storage := storage', mempool := mempool' })
                  | ((true, _), storage', mempool') =>
                      let st := { st with
                        storage := storage'
                        mempool := mempool' }
                      let bk := blockKey block'
                      let st := { st with
                        blocks := dictSet st.blocks bk block'
                        heads := dictDel (dictSet st.heads bk new_head)
                          (blockKey parent) }
                      let wantReorg := match st.main_head with
                        | none => true
                        | some main =>
                            main.total_difficulty < new_head.total_difficulty
                      match (if wantReorg then
                          reorganizeChain st now txSize new_head fuel
                        else .ok st) with
                      | .error e =>
                          ((false, some ("Block addition error: " ++ e)), st)
                      | .ok st2 =>
                          let st3 := processOrphans
                            (fun s b => addBlockGo fuel now txSize s b none)
                            fuel st2
                          ((true, none), updateCrossRefs st3 block')

/-- `add_block` with fuel covering every internal loop. -/
def addBlock (st : FractalBlockchain) (now : ℤ)
    (txSize : FractalTransaction → ℕ) (block : FractalBlock)
    (cross_shard_refs : Option (List (ℕ × FractalBlock))) (fuel : ℕ) :
    (Bool × Option String) × FractalBlockchain :=
  addBlockGo fuel now txSize st block cross_shard_refs

/-- `__init__` with a genesis block: validate it, install it as the only
block and head, and make it the main head (no state application is
performed).  The raised `ValueError` on an invalid genesis is the error
case. -/
def initChain (shard_id : ℕ) (consensus : ShardConsensus)
    (storage : UTXOStorage) (mempool : TransactionMempool) (now : ℤ)
    (genesis : FractalBlock) : Except String FractalBlockchain :=
  match BlockValidator.validateBlock consensus storage mempool now genesis
    none none with
  | ((false, e, _), _, _) =>
      .error ("Invalid genesis block: " ++ e.getD "None")
  | ((true, _, ctxOpt), consensus', genesis') =>
      let head : ChainHead :=
        ⟨genesis', 0, genesis'.header.difficulty, ctxOpt.getD ⟨[], [], []⟩⟩
      .ok ⟨shard_id, consensus', storage, mempool,
        [(blockKey genesis', genesis')], [(blockKey genesis', head)],
        some head, [], []⟩

end FractalBlockchain

/-- The plain additive difficulty sum along a head's chain: walk
`prev_hash` through the block map, adding each header's `difficulty`
field, stopping when the parent is unknown (the genesis).  Fueled; every
fuel at least the chain length gives the full sum. -/
def chainDiffSum (blocks : List (String × FractalBlock)) :
    ℕ → FractalBlock → ℤ
  | 0, b => b.header.difficulty
  | fuel + 1, b =>
      match dictGet blocks b.header.prev_hash with
      | none => b.header.difficulty
      | some prev => b.header.difficulty + chainDiffSum blocks fuel prev

/-- One `add_block` call: its wall-clock time, serialized-size estimate,
block, cross-shard references, and recursion fuel. -/
structure ChainCall where
  now : ℤ
  txSize : FractalTransaction → ℕ
  block : FractalBlock
  refs : Option (List (ℕ × FractalBlock))
  fuel : ℕ

/-- A finite sequence of `add_block` calls against the chain. -/
def runCalls (st : FractalBlockchain) : List ChainCall → FractalBlockchain
  | [] => st
  | c :: rest =>
      runCalls (st.addBlock c.now c.txSize c.block c.refs c.fuel).2 rest

/-! ## Concrete scenarios

Concrete states used to evaluate the code: the granted states the claims
presuppose — stores holding UTXOs under their ids, transactions carrying
their ids — with every id the exact SHA-256 value the source's
`compute_id` bodies denote, and blocks whose stored hashes satisfy the
proof-of-work parse (`from_dict` restores a block hash verbatim, so any
hash string is constructible). -/

namespace Scenario

def zeros64 : String :=
  "0000000000000000000000000000000000000000000000000000000000000000"

def hexOne : String :=
  "0000000000000000000000000000000000000000000000000000000000000001"

def hexTwo : String :=
  "0000000000000000000000000000000000000000000000000000000000000002"

/-- Shard-0 coordinate of depth 1. -/
def coord0 : FractalCoordinate := ⟨1, [0]⟩

/-- Shard-0 consensus with the source's default parameters. -/
def consensus0 : ShardConsensus := ⟨0, 600, 2016, 4, 16, []⟩

/-- A fresh mempool with the source's default parameters. -/
def mempool0 : TransactionMempool := TransactionMempool.init 50000 (1 / 100000)

/-- A plain `OP_CHECKSIG` UTXO worth 10 coins held by `owner`. -/
def plainUtxo (owner : String) : FractalUTXO :=
  ⟨owner, 10, coord0, 0, "OP_CHECKSIG", none, none⟩

/-- A store state holding `u` under its id, with the shard index entry a
populated store carries — the granted state the claims presuppose
(`add_utxo` itself can never build it, since its spatial-index update
raises; see `UTXOStorage.addUtxo`). -/
def addU (s : UTXOStorage) (u : FractalUTXO) : UTXOStorage :=
  ⟨dictSet s.utxos u.utxoId u,
   dictSet s.shard_indices u.shardAffinity
     (((dictGet s.shard_indices u.shardAffinity).getD []) ++ [u.utxoId])⟩

/-- A transaction spending `u` entirely into one `out`-coin output for
`owner`. -/
def spendTx (u : FractalUTXO) (owner : String) (out : ℚ) (nonce : ℤ) :
    FractalTransaction :=
  ⟨[⟨u.utxoId, "sig", "pubkey"⟩], [⟨owner, out, coord0, "OP_CHECKSIG", none,
    none⟩], 1000, nonce⟩

/-- A shard-0 block at `height` holding one transaction. -/
def oneTxBlock (prev_hash : String) (timestamp height : ℤ)
    (tx : FractalTransaction) (block_hash : String) : FractalBlock :=
  ⟨⟨1, prev_hash, tx.txId, timestamp, 16, 0, height, coord0, []⟩, [tx], [],
    some block_hash⟩

/-! ### Apply/revert scenario (claim C1) -/

def spentU : FractalUTXO := plainUtxo "alice"

def store1 : UTXOStorage := addU UTXOStorage.empty spentU

def tx1 : FractalTransaction := spendTx spentU "carol" 5 1

def block1 : FractalBlock := oneTxBlock zeros64 1000 0 tx1 zeros64

/-- The validator's verdict on `block1` (prev-less acceptance). -/
def c1V := BlockValidator.validateBlock consensus0 store1 mempool0 2000
  block1 none none

def c1Ctx : ValidationContext := c1V.1.2.2.getD ⟨[], [], []⟩

/-- Applying the accepted block. -/
def c1Apply := BlockValidator.applyBlock store1 mempool0 c1V.2.2 c1Ctx

/-- Reverting it again. -/
def c1Revert := BlockValidator.revertBlock c1Apply.2.1 c1Apply.2.2 2000
  (fun _ => 1) c1V.2.2 c1Ctx

/-! ### `add_block` scenario (claims C2, C3) -/

def gUtxo : FractalUTXO := plainUtxo "genesis-owner"

def bUtxo : FractalUTXO := plainUtxo "block-owner"

def store2 : UTXOStorage := addU (addU UTXOStorage.empty gUtxo) bUtxo

def gTx : FractalTransaction := spendTx gUtxo "carol" 5 1

def bTx : FractalTransaction := spendTx bUtxo "dave" 5 2

def genesis2 : FractalBlock := oneTxBlock zeros64 1000 0 gTx hexOne

def block2 : FractalBlock := oneTxBlock hexOne 1001 1 bTx hexTwo

/-- The chain after `__init__` with `genesis2`. -/
def chain2 : FractalBlockchain :=
  match FractalBlockchain.initChain 0 consensus0 store2 mempool0 2000
    genesis2 with
  | .ok c => c
  | .error _ => ⟨0, consensus0, store2, mempool0, [], [], none, [], []⟩

/-- One-byte size estimate standing in for `len(str(tx.to_dict()))`. -/
def sz1 : FractalTransaction → ℕ := fun _ => 1

/-- `add_block(block2)` on the initialized chain. -/
def c2Add := chain2.addBlock 2000 sz1 block2 none 10

/-! ### Mempool-eviction scenario (claim C5): capacity 3, resident
fee-per-byte 5, 4, 3, incoming fee-per-byte 6. -/

def mpU1 : FractalUTXO := plainUtxo "owner-one"
def mpU2 : FractalUTXO := plainUtxo "owner-two"
def mpU3 : FractalUTXO := plainUtxo "owner-three"
def mpU4 : FractalUTXO := plainUtxo "owner-four"

def mpStore : UTXOStorage :=
  addU (addU (addU (addU UTXOStorage.empty mpU1) mpU2) mpU3) mpU4

def mpT1 : FractalTransaction := spendTx mpU1 "x" 5 1
def mpT2 : FractalTransaction := spendTx mpU2 "x" 6 2
def mpT3 : FractalTransaction := spendTx mpU3 "x" 7 3
def mpT4 : FractalTransaction := spendTx mpU4 "x" 4 4

def mpCap3 : TransactionMempool := TransactionMempool.init 3 (1 / 100000)

def mpStep1 := mpCap3.addTransaction mpT1 mpStore 1 500 1
def mpStep2 := mpStep1.2.addTransaction mpT2 mpStore 1 500 1
def mpStep3 := mpStep2.2.addTransaction mpT3 mpStore 1 500 1
def mpStep4 := mpStep3.2.addTransaction mpT4 mpStore 1 500 1

/-! ### Merkle-mesh scenarios (claim C4) -/

/-- A single-transaction mesh: its built root is the leaf itself. -/
def mesh1 : MerkleMesh := MerkleMesh.init.addTransaction "t" coord0 none

/-- A two-transaction mesh. -/
def mesh2 : MerkleMesh :=
  (MerkleMesh.init.addTransaction "a" coord0 none).addTransaction "b" coord0
    none

/-! ### Spatial-index scenario (claim C9) -/

def ix1 : UTXOSpatialIndexer :=
  match (UTXOSpatialIndexer.init (1 / 10)).insert "utxo1" (1 / 2, 1 / 2) with
  | .ok ix => ix
  | .error _ => UTXOSpatialIndexer.init (1 / 10)

end Scenario

/-! ## Claim theorems: concrete evaluations -/

/-- Claim C5 (code bug).  A mempool of capacity 3 admits fee-per-byte
5, 4 and 3; a valid transaction with fee-per-byte 6 is then rejected with
`Mempool full` and nothing is evicted (the prune guard `len <= max_size`
makes eviction unreachable at exactly `max_size`), leaving the mempool
bit-identical instead of retaining 6, 5, 4. -/
theorem mempool_no_eviction_at_capacity :
    Scenario.mpStep1.1 = (true, none) ∧
    Scenario.mpStep2.1 = (true, none) ∧
    Scenario.mpStep3.1 = (true, none) ∧
    Scenario.mpStep3.2.transactions.map (fun p => p.2.fee_per_byte) =
      [5, 4, 3] ∧
    Scenario.mpStep3.2.transactions.length = Scenario.mpStep3.2.max_size ∧
    Scenario.mpStep4.1 = (false, some "Mempool full") ∧
    Scenario.mpStep4.2.transactions.map (·.1) =
      Scenario.mpStep3.2.transactions.map (·.1) ∧
    Scenario.mpT4.txId ∉ Scenario.mpStep4.2.transactions.map (·.1) ∧
    Scenario.mpStep4.2.transactions.map (fun p => p.2.fee_per_byte) =
      [5, 4, 3] := by
  with_unfolding_all decide

/-- Claim C9 (code bug).  Removing an id that is not indexed returns
normally with the index unchanged — no error is raised, contradicting the
method's docstring and the tests, which demand a `ValueError`. -/
theorem indexer_remove_nonexistent_no_error :
    "nonexistent" ∉ Scenario.ix1.ids ∧
    (Scenario.ix1.remove "nonexistent" (1 / 2, 1 / 2)).toOption =
      some Scenario.ix1 := by
  with_unfolding_all decide

/-! ## Claim theorems: coordinate algebra -/

/-- Claim C10 (confirmed).  `get_parent` is total on well-formed
coordinates — its result again satisfies the constructor checks — and it
fixes the root while trimming the last path digit at depth ≥ 1. -/
theorem get_parent_total (c : FractalCoordinate) (hwf : c.wf) :
    c.getParent.wf ∧
    (c.depth = 0 → c.getParent = c) ∧
    (1 ≤ c.depth → c.getParent = ⟨c.depth - 1, c.path.dropLast⟩) := by
  obtain ⟨hlen, hdig⟩ := hwf
  by_cases h : c.depth = 0
  · have hgp : c.getParent = c := by simp [FractalCoordinate.getParent, h]
    exact ⟨by rw [hgp]; exact ⟨hlen, hdig⟩, fun _ => hgp,
      fun h1 => absurd h (by omega)⟩
  · have hgp : c.getParent = ⟨c.depth - 1, c.path.dropLast⟩ := by
      simp [FractalCoordinate.getParent, h]
    refine ⟨?_, fun h0 => absurd h0 h, fun _ => hgp⟩
    rw [hgp]
    exact ⟨by simp [List.length_dropLast, hlen],
      fun d hd => hdig d ((List.dropLast_sublist c.path).subset hd)⟩

/-- Witness for `get_parent_total` at the coordinate `(2, [1, 2])`. -/
theorem get_parent_total_witness :
    FractalCoordinate.wf ⟨2, [1, 2]⟩ ∧
    (FractalCoordinate.getParent ⟨2, [1, 2]⟩).wf ∧
    FractalCoordinate.getParent ⟨2, [1, 2]⟩ = ⟨1, [1]⟩ := by
  refine ⟨by decide, (get_parent_total ⟨2, [1, 2]⟩ (by decide)).1, ?_⟩
  have h := (get_parent_total ⟨2, [1, 2]⟩ (by decide)).2.2 (by decide)
  simpa using h

/-- Bounds through the `to_cartesian` loop: the `x` coordinate moves at
most `scale/2` from its start; the `√3`-coefficient of `y` only grows, by
at most `scale/2`. -/
theorem toCartesianGo_bounds (path : List ℕ) :
    ∀ (x yc scale : ℚ), 0 ≤ scale →
      x - scale / 2 ≤ (FractalCoordinate.toCartesianGo path x yc scale).1 ∧
      (FractalCoordinate.toCartesianGo path x yc scale).1 ≤ x + scale / 2 ∧
      yc ≤ (FractalCoordinate.toCartesianGo path x yc scale).2 ∧
      (FractalCoordinate.toCartesianGo path x yc scale).2 ≤ yc + scale / 2 := by
  induction path with
  | nil =>
      intro x yc scale hs
      simp only [FractalCoordinate.toCartesianGo]
      constructor
      · linarith
      · exact ⟨by linarith, le_refl _, by linarith⟩
  | cons m rest ih =>
      intro x yc scale hs
      have hs2 : (0 : ℚ) ≤ scale / 2 := by linarith
      simp only [FractalCoordinate.toCartesianGo]
      split_ifs with h0 h1 h2
      · obtain ⟨a, b, c, d⟩ := ih (x - scale / 2 / 2)
          (yc + scale / 2 * (1 / 4)) (scale / 2) hs2
        exact ⟨by linarith, by linarith, by linarith, by linarith⟩
      · obtain ⟨a, b, c, d⟩ := ih x (yc + scale / 2 * (1 / 2)) (scale / 2) hs2
        exact ⟨by linarith, by linarith, by linarith, by linarith⟩
      · obtain ⟨a, b, c, d⟩ := ih (x + scale / 2 / 2)
          (yc + scale / 2 * (1 / 4)) (scale / 2) hs2
        exact ⟨by linarith, by linarith, by linarith, by linarith⟩
      · obtain ⟨a, b, c, d⟩ := ih x yc (scale / 2) hs2
        exact ⟨by linarith, by linarith, by linarith, by linarith⟩

/-- Claim C8 (code bug).  The claim asserts `to_cartesian` returns a point
inside the unit triangle, but the method never returns a point at all: its
`@lru_cache` wrapper hashes the receiver before the body runs, and
`FractalCoordinate` — defining `__eq__` without `__hash__` — is
unhashable, so every call (valid coordinate or not) raises
`TypeError: unhashable type: 'FractalCoordinate'`. -/
theorem cartesian_bounds_unreachable :
    ∀ c : FractalCoordinate,
      c.toCartesian = .error "unhashable type: 'FractalCoordinate'" :=
  fun _ => rfl

/-! ## Claim theorems: consensus coordinate validity -/

/-- The digit-count loop computes `log₂ + 1` on positive inputs (with
enough fuel). -/
theorem pyBitLenGo_eq (fuel : ℕ) : ∀ n, n ≤ fuel → 1 ≤ n →
    pyBitLenGo fuel n = Nat.log 2 n + 1 := by
  induction fuel with
  | zero => intro n hn h1; omega
  | succ fuel ih =>
      intro n hn h1
      have hne : ¬ n = 0 := by omega
      simp only [pyBitLenGo, hne, if_false]
      by_cases h2 : n < 2
      · have hn1 : n = 1 := by omega
        subst hn1
        have hz : pyBitLenGo fuel 0 = 0 := by
          cases fuel <;> simp [pyBitLenGo]
        simp [hz, Nat.log_one_right]
      · have hhalf1 : 1 ≤ n / 2 := by omega
        have hhalfle : n / 2 ≤ fuel := by omega
        rw [ih (n / 2) hhalfle hhalf1]
        have hlog : Nat.log 2 (n / 2) = Nat.log 2 n - 1 := Nat.log_div_base 2 n
        have hpos : 0 < Nat.log 2 n := Nat.log_pos (by norm_num) (by omega)
        omega

/-- For `n ≥ 1`, the binary digit count equals `⌈log₂ (n+1)⌉`. -/
theorem log_succ_clog (n : ℕ) (h1 : 1 ≤ n) :
    Nat.clog 2 (n + 1) = Nat.log 2 n + 1 := by
  have hb : (1 : ℕ) < 2 := by norm_num
  refine le_antisymm ?_ ?_
  · exact (Nat.le_pow_iff_clog_le hb).mp
      (Nat.lt_pow_succ_log_self hb n)
  · by_contra hc
    push_neg at hc
    have h2 : Nat.clog 2 (n + 1) ≤ Nat.log 2 n := by omega
    have h3 : n + 1 ≤ 2 ^ Nat.clog 2 (n + 1) := Nat.le_pow_clog hb _
    have h4 : (2 : ℕ) ^ Nat.clog 2 (n + 1) ≤ 2 ^ Nat.log 2 n :=
      Nat.pow_le_pow_right (by norm_num) h2
    have h5 : 2 ^ Nat.log 2 n ≤ n := Nat.pow_log_le_self 2 (by omega)
    omega

/-- `len(bin(n)[2:])` is one for zero and `⌈log₂ (n+1)⌉` otherwise. -/
theorem pyBitLen_eq (n : ℕ) :
    pyBitLen n = if n = 0 then 1 else Nat.clog 2 (n + 1) := by
  by_cases h : n = 0
  · simp [pyBitLen, h]
  · have h1 : 1 ≤ n := by omega
    simp only [pyBitLen, h, if_false]
    rw [pyBitLenGo_eq n n (le_refl n) h1, log_succ_clog n h1]

/-- Claim C7, as stated, is false on the code: for shard 0 the root
coordinate satisfies every condition of the claim — its shard id is 0, its
depth 0 meets `⌈log₂(0+1)⌉ = 0`, and the empty binary expansion trivially
matches — yet `_validate_coordinate` rejects it, because `len(bin(0)[2:])`
is 1, not 0. -/
theorem coordinate_validity_counterexample :
    FractalCoordinate.getShardId ⟨0, []⟩ = 0 ∧
    Nat.clog 2 (0 + 1) ≤ (FractalCoordinate.mk 0 []).depth ∧
    (FractalCoordinate.mk 0 []).path.take (shardBits 0).length =
      shardBits 0 ∧
    ShardConsensus.validateCoordinate ⟨0, 600, 2016, 4, 16, []⟩ ⟨0, []⟩ =
      false := by
  refine ⟨by decide, ?_, by decide, by decide⟩
  simp [Nat.clog_one_right]

/-- Claim C7 (corrected).  `_validate_coordinate` for shard `S` accepts a
coordinate exactly when its shard id is `S`, its depth is at least
`⌈log₂(S+1)⌉` — except for shard 0, which requires depth at least 1 — and
its leading path digits spell `S` in MSB-first binary. -/
theorem coordinate_validity_amended (cons : ShardConsensus)
    (c : FractalCoordinate) :
    cons.validateCoordinate c = true ↔
      (c.getShardId = cons.shard_id ∧
        (if cons.shard_id = 0 then 1 else Nat.clog 2 (cons.shard_id + 1)) ≤
          c.depth ∧
        c.path.take (shardBits cons.shard_id).length =
          shardBits cons.shard_id) := by
  unfold ShardConsensus.validateCoordinate
  rw [← pyBitLen_eq]
  split_ifs with h1 h2 h3
  · simp only [Bool.false_eq_true, false_iff]
    intro ⟨a, _, _⟩; exact h1 a
  · simp only [Bool.false_eq_true, false_iff]
    intro ⟨_, b, _⟩; omega
  · simp only [Bool.false_eq_true, false_iff]
    intro ⟨_, _, cc⟩; exact h3 cc
  · simp only [true_iff]
    exact ⟨by omega, by omega, by
      by_contra hc; exact h3 hc⟩

/-- The digit list built by the shard-path loop is the MSB-first binary
expansion: folding it as base-2 digits recovers the shard id. -/
theorem shardBitsGo_foldl (fuel : ℕ) : ∀ n acc, n ≤ fuel →
    List.foldl (fun a b => 2 * a + b) acc (shardBitsGo fuel n) =
      acc * 2 ^ (shardBitsGo fuel n).length + n := by
  induction fuel with
  | zero => intro n acc hn; interval_cases n; simp [shardBitsGo]
  | succ fuel ih =>
      intro n acc hn
      by_cases h : n = 0
      · simp [shardBitsGo, h]
      · have hrec := ih (n / 2) acc (by omega)
        simp only [shardBitsGo, h, if_false, List.foldl_append,
          List.length_append, List.foldl_cons, List.foldl_nil,
          List.length_cons, List.length_nil, hrec]
        have : n % 2 < 2 := Nat.mod_lt _ (by norm_num)
        ring_nf
        omega

/-- Folding `shardBits n` as base-2 digits gives back `n`. -/
theorem shardBits_foldl (n : ℕ) :
    List.foldl (fun a b => 2 * a + b) 0 (shardBits n) = n := by
  have := shardBitsGo_foldl n n 0 (le_refl n)
  simpa [shardBits] using this

/-! ## Claim theorems: UTXO conservation -/

/-- The input sum the source accumulates: resolved input amounts, with
multiplicity, missing inputs contributing nothing. -/
def resolvedInputSum (storage : UTXOStorage)
    (inputs : List TransactionInput) : ℚ :=
  (inputs.map (fun i =>
    match storage.getUtxo i.utxo_id with
    | some u => u.amount
    | none => 0)).sum

/-- A successful input loop returns the accumulator plus the resolved
input sum (and every input resolved). -/
theorem validateInputs_ok (storage : UTXOStorage)
    (mp : Option (String → Bool)) :
    ∀ (inputs : List TransactionInput) (acc s : ℚ),
      FractalTransaction.validateInputs storage mp inputs acc = .ok s →
      s = acc + resolvedInputSum storage inputs := by
  intro inputs
  induction inputs with
  | nil =>
      intro acc s h
      simp only [FractalTransaction.validateInputs, Except.ok.injEq] at h
      simp [resolvedInputSum, ← h]
  | cons i rest ih =>
      intro acc s h
      rcases hu : storage.getUtxo i.utxo_id with _ | u
      · simp [FractalTransaction.validateInputs, hu] at h
      · simp only [FractalTransaction.validateInputs, hu] at h
        split_ifs at h with h1 h2
        first
            | exact absurd h (by simp)
            | (have hrec := ih (acc + u.amount) s h
               simp only [resolvedInputSum, List.map_cons, List.sum_cons, hu]
               simp only [resolvedInputSum] at hrec
               linarith)

/-- When every input resolves, is unspent in the mempool, and passes the
signature check, the input loop succeeds with the resolved sum. -/
theorem validateInputs_complete (storage : UTXOStorage)
    (mp : Option (String → Bool)) :
    ∀ (inputs : List TransactionInput) (acc : ℚ),
      (∀ i ∈ inputs, ∃ u, storage.getUtxo i.utxo_id = some u ∧
        (∀ f, mp = some f → f i.utxo_id = false) ∧
        u.canSpendWith i.signature i.public_key = true) →
      FractalTransaction.validateInputs storage mp inputs acc =
        .ok (acc + resolvedInputSum storage inputs) := by
  intro inputs
  induction inputs with
  | nil => intro acc _; simp [FractalTransaction.validateInputs,
      resolvedInputSum]
  | cons i rest ih =>
      intro acc hall
      obtain ⟨u, hu, hmp, hsig⟩ := hall i (by simp)
      have hstep : FractalTransaction.validateInputs storage mp (i :: rest)
          acc = FractalTransaction.validateInputs storage mp rest
            (acc + u.amount) := by
        cases mp with
        | none => simp [FractalTransaction.validateInputs, hu, hsig]
        | some f =>
            have hf : f i.utxo_id = false := hmp f rfl
            simp [FractalTransaction.validateInputs, hu, hf, hsig]
      rw [hstep, ih (acc + u.amount) (fun j hj => hall j (by simp [hj]))]
      simp only [resolvedInputSum, List.map_cons, List.sum_cons, hu]
      congr 1
      ring

/-- Claim C6 (confirmed).  UTXO conservation: when `validate` accepts, the
output sum is at most the resolved input sum; and when the inputs all
resolve, are mempool-unspent and pass the signature check but the outputs
exceed the inputs, `validate` fails with the overspend error. -/
theorem utxo_conservation (tx : FractalTransaction) (storage : UTXOStorage)
    (height : ℤ) (mp : Option (String → Bool)) :
    ((tx.validate storage height mp).1 = true →
      (tx.outputs.map (·.amount)).sum ≤ resolvedInputSum storage tx.inputs) ∧
    ((∀ i ∈ tx.inputs, ∃ u, storage.getUtxo i.utxo_id = some u ∧
        (∀ f, mp = some f → f i.utxo_id = false) ∧
        u.canSpendWith i.signature i.public_key = true) →
      resolvedInputSum storage tx.inputs <
        (tx.outputs.map (·.amount)).sum →
      tx.validate storage height mp =
        (false, some "Output amount exceeds input amount")) := by
  constructor
  · intro hv
    simp only [FractalTransaction.validate] at hv
    match hres : FractalTransaction.validateInputs storage mp tx.inputs 0 with
    | .error e => rw [hres] at hv; simp at hv
    | .ok s =>
        rw [hres] at hv
        have hs := validateInputs_ok storage mp tx.inputs 0 s hres
        by_cases hlt : s < (tx.outputs.map (·.amount)).sum
        · exfalso; simp [hlt] at hv
        · push_neg at hlt
          simpa [hs] using hlt
  · intro hall hlt
    simp only [FractalTransaction.validate]
    rw [validateInputs_complete storage mp tx.inputs 0 hall]
    simp only [zero_add]
    simp [hlt]

/-- Witness for `utxo_conservation`: the scenario transaction spending a
10-coin UTXO into a 5-coin output validates, and its output sum is bounded
by its resolved input sum. -/
theorem utxo_conservation_witness :
    (Scenario.tx1.validate Scenario.store1 0 none).1 = true ∧
    (Scenario.tx1.outputs.map (·.amount)).sum ≤
      resolvedInputSum Scenario.store1 Scenario.tx1.inputs :=
  have h : (Scenario.tx1.validate Scenario.store1 0 none).1 = true := by
    with_unfolding_all decide
  ⟨h, (utxo_conservation Scenario.tx1 Scenario.store1 0 none).1 h⟩

/-! ## Claim theorems: mesh round trip (claim C4) -/

namespace MerkleMesh

theorem mkParent_hash (l r : MerkleNode) :
    (pairStep.mkParent l r).hash = hashPair l.hash r.hash := rfl

theorem pairStep_hashes : ∀ l : List MerkleNode,
    (pairStep l).map MerkleNode.hash = pairH (l.map MerkleNode.hash) := by
  intro l
  induction l using pairStep.induct with
  | case1 => rfl
  | case2 x => simp [pairStep, pairH, mkParent_hash]
  | case3 x y rest ih => simp [pairStep, pairH, mkParent_hash, ih]

theorem parentLevel_hashes : ∀ l : List MerkleNode,
    (parentLevel l).map MerkleNode.hash = pairH (l.map MerkleNode.hash) := by
  intro l
  induction l using parentLevel.induct with
  | case1 => rfl
  | case2 x => simp [parentLevel, pairH, MerkleNode.plain, MerkleNode.hash]
  | case3 x y rest ih =>
      simp [parentLevel, pairH, MerkleNode.plain, MerkleNode.hash, ih]

theorem pairH_length : ∀ hs : List String,
    (pairH hs).length = (hs.length + 1) / 2 := by
  intro hs
  induction hs using pairH.induct with
  | case1 => rfl
  | case2 x => simp [pairH]
  | case3 x y rest ih => simp [pairH, ih]; omega

theorem foldProof_eq_foldH (p : List (String × Bool × Option ℕ)) (t : String) :
    foldProof p t = foldH (p.map (fun e => (e.1, e.2.1))) t := by
  simp [foldProof, foldH, List.foldl_map]

theorem pairH_get? : ∀ (k : ℕ) (hs : List String) (a : String),
    hs.get? (2 * k) = some a →
    (pairH hs).get? k =
      some (match hs.get? (2 * k + 1) with
            | some b => hashPair a b
            | none => hashPair a a) := by
  intro k
  induction k with
  | zero =>
      intro hs a ha
      match hs with
      | [] => simp at ha
      | [x] =>
          simp at ha
          subst ha
          simp [pairH]
      | x :: y :: t =>
          simp at ha
          subst ha
          simp [pairH]
  | succ k ih =>
      intro hs a ha
      match hs with
      | [] => simp at ha
      | [x] =>
          rw [show 2 * (k + 1) = 2 * k + 1 + 1 by ring] at ha
          simp at ha
      | x :: y :: t =>
          rw [show 2 * (k + 1) = 2 * k + 1 + 1 by ring] at ha
          rw [List.get?_cons_succ, List.get?_cons_succ] at ha
          have := ih t a ha
          rw [show 2 * (k + 1) + 1 = 2 * k + 1 + 1 + 1 by ring]
          rw [List.get?_cons_succ, List.get?_cons_succ]
          simpa [pairH] using this

theorem buildGo_hashes : ∀ (fuel : ℕ) (l : List MerkleNode),
    (buildGo fuel l).map MerkleNode.hash = rootH fuel (l.map MerkleNode.hash) := by
  intro fuel
  induction fuel with
  | zero => intro l; simp [buildGo, rootH, List.head?_map]
  | succ fuel ih =>
      intro l
      by_cases h : l.length ≤ 1
      · simp [buildGo, rootH, h, List.head?_map]
      · simp [buildGo, rootH, h, ih, pairStep_hashes]

theorem proofGo_hashes : ∀ (fuel : ℕ) (level : List MerkleNode) (idx : ℕ)
    (target : Option ℕ),
    (proofGo fuel level idx target).map (fun e => (e.1, e.2.1)) =
      proofH fuel (level.map MerkleNode.hash) idx := by
  intro fuel
  induction fuel with
  | zero => intro level idx target; rfl
  | succ fuel ih =>
      intro level idx target
      by_cases h : level.length ≤ 1
      · simp [proofGo, proofH, h]
      · simp only [proofGo, proofH, List.length_map, if_neg h, List.get?_map]
        rcases hget : level.get?
            (if level.length ≤ (if idx % 2 = 0 then idx + 1 else idx - 1)
             then idx else if idx % 2 = 0 then idx + 1 else idx - 1)
            with _ | s
        · simp
        · simp [ih, parentLevel_hashes]

theorem roundH : ∀ (fuel : ℕ) (hs : List String) (idx : ℕ) (a : String),
    hs.length ≤ fuel → hs.get? idx = some a →
    ∃ r, rootH fuel hs = some r ∧ foldH (proofH fuel hs idx) a = r := by
  intro fuel
  induction fuel with
  | zero =>
      intro hs idx a hlen hget
      have : hs = [] := List.length_eq_zero.mp (Nat.le_zero.mp hlen)
      subst this
      simp at hget
  | succ fuel ih =>
      intro hs idx a hlen hget
      have hidx : idx < hs.length := by
        by_contra hc
        rw [List.get?_eq_none.mpr (by omega)] at hget
        exact Option.noConfusion hget
      by_cases h1 : hs.length ≤ 1
      · have hidx0 : idx = 0 := by omega
        subst hidx0
        refine ⟨a, ?_, ?_⟩
        · rw [rootH, if_pos h1, ← List.get?_zero, hget]
        · rw [proofH, if_pos h1]
          rfl
      · have h2 : 2 ≤ hs.length := by omega
        have hlen2 : (pairH hs).length ≤ fuel := by
          rw [pairH_length]; omega
        by_cases hpar : idx % 2 = 0
        · by_cases hlast : hs.length ≤ idx + 1
          · -- even index whose sibling slot is past the end: paired with itself
            have h2k : 2 * (idx / 2) = idx := by omega
            have hk0 := pairH_get? (idx / 2) hs a (by rw [h2k]; exact hget)
            rw [h2k] at hk0
            have hnone : hs.get? (idx + 1) = none := List.get?_eq_none.mpr (by omega)
            rw [hnone] at hk0
            have hk : (pairH hs).get? (idx / 2) = some (hashPair a a) := hk0
            obtain ⟨r, hr, hf⟩ := ih (pairH hs) (idx / 2) (hashPair a a) hlen2 hk
            refine ⟨r, ?_, ?_⟩
            · rw [rootH, if_neg h1]; exact hr
            · rw [proofH, if_neg h1]
              have hget2 : hs[idx]? = some a := by
                rw [← List.get?_eq_getElem?]; exact hget
              simp only [hpar]
              simp [hlast, hget2, foldH]
              simpa [foldH] using hf
          · -- even index with a real right sibling
            rcases hsb : hs.get? (idx + 1) with _ | s
            · rw [List.get?_eq_none] at hsb; omega
            have h2k : 2 * (idx / 2) = idx := by omega
            have hk0 := pairH_get? (idx / 2) hs a (by rw [h2k]; exact hget)
            rw [h2k] at hk0
            rw [hsb] at hk0
            have hk : (pairH hs).get? (idx / 2) = some (hashPair a s) := hk0
            obtain ⟨r, hr, hf⟩ := ih (pairH hs) (idx / 2) (hashPair a s) hlen2 hk
            refine ⟨r, ?_, ?_⟩
            · rw [rootH, if_neg h1]; exact hr
            · rw [proofH, if_neg h1]
              have hsb2 : hs[idx + 1]? = some s := by
                rw [← List.get?_eq_getElem?]; exact hsb
              simp only [hpar]
              simp [hlast, hsb2, foldH]
              simpa [foldH] using hf
        · -- odd index: sibling on the left
          rcases hsb : hs.get? (idx - 1) with _ | s
          · rw [List.get?_eq_none] at hsb; omega
          have h2k : 2 * (idx / 2) = idx - 1 := by omega
          have h2k1 : 2 * (idx / 2) + 1 = idx := by omega
          have hk0 := pairH_get? (idx / 2) hs s (by rw [h2k]; exact hsb)
          rw [h2k1] at hk0
          rw [hget] at hk0
          have hk : (pairH hs).get? (idx / 2) = some (hashPair s a) := hk0
          obtain ⟨r, hr, hf⟩ := ih (pairH hs) (idx / 2) (hashPair s a) hlen2 hk
          have hguard : ¬ hs.length ≤ idx - 1 := by omega
          refine ⟨r, ?_, ?_⟩
          · rw [rootH, if_neg h1]; exact hr
          · rw [proofH, if_neg h1]
            have hsb2 : hs[idx - 1]? = some s := by
              rw [← List.get?_eq_getElem?]; exact hsb
            simp only [hpar]
            simp [hpar, hguard, hsb2, foldH]
            simpa [foldH] using hf

theorem proofH_ne_nil : ∀ (fuel : ℕ) (hs : List String) (idx : ℕ),
    2 ≤ hs.length → idx < hs.length → proofH (fuel + 1) hs idx ≠ [] := by
  intro fuel hs idx h2 hidx
  rw [proofH, if_neg (by omega)]
  by_cases hpar : idx % 2 = 0
  · by_cases hlast : hs.length ≤ idx + 1
    · have hg : hs[idx]? = some hs[idx] := List.getElem?_eq_getElem hidx
      simp [hpar, hlast, hg]
    · have hlt : idx + 1 < hs.length := by omega
      have hg : hs[idx + 1]? = some hs[idx + 1] := List.getElem?_eq_getElem hlt
      simp [hpar, hlast, hg]
  · have hlt : idx - 1 < hs.length := by omega
    have hguard : ¬ hs.length ≤ idx - 1 := by omega
    have hg : hs[idx - 1]? = some hs[idx - 1] := List.getElem?_eq_getElem hlt
    simp [hpar, hguard, hg]

theorem findIdx?_hash_spec : ∀ (L : List MerkleNode) (t : String) (i : ℕ),
    t ∈ L.map MerkleNode.hash →
    ∃ j s, L.findIdx? (fun l => l.hash = t) i = some j ∧ i ≤ j ∧
      L.get? (j - i) = some s ∧ s.hash = t := by
  intro L
  induction L with
  | nil => intro t i hmem; simp at hmem
  | cons x xs ih =>
      intro t i hmem
      by_cases hx : x.hash = t
      · exact ⟨i, x, by simp [List.findIdx?_cons, hx], le_refl i, by simp, hx⟩
      · have hmem' : t ∈ xs.map MerkleNode.hash := by
          rcases List.mem_map.mp hmem with ⟨y, hy, hyt⟩
          rcases List.mem_cons.mp hy with hy | hy
          · exact absurd (hy ▸ hyt) hx
          · exact List.mem_map.mpr ⟨y, hy, hyt⟩
        obtain ⟨j, s, hfind, hij, hget, hhash⟩ := ih t (i + 1) hmem'
        refine ⟨j, s, ?_, by omega, ?_, hhash⟩
        · rw [List.findIdx?_cons, if_neg (by simp [hx])]
          exact hfind
        · have : j - i = (j - (i + 1)) + 1 := by omega
          rw [this, List.get?_cons_succ]
          exact hget

theorem mesh_round_trip_main :
    ∀ (m : MerkleMesh) (t : String) (target : Option ℕ),
      2 ≤ m.leaves.length → t ∈ m.leaves.map MerkleNode.hash →
      ∃ p, (m.build).getProof t target = .ok p ∧ p ≠ [] ∧
        (m.build).verifyProof t p none = .ok true := by
  intro m t target h2 hmem
  obtain ⟨j, s, hfind, _, hgetj, hhash⟩ := findIdx?_hash_spec m.leaves t 0 hmem
  simp only [Nat.sub_zero] at hgetj
  have hjlen : j < m.leaves.length := by
    by_contra hc
    rw [List.get?_eq_none.mpr (by omega)] at hgetj
    exact Option.noConfusion hgetj
  have hmap : (m.leaves.map MerkleNode.hash).get? j = some t := by
    rw [List.get?_map, hgetj]
    simp [hhash]
  obtain ⟨r, hr, hf⟩ := roundH m.leaves.length (m.leaves.map MerkleNode.hash) j t
    (by simp) hmap
  have hbuildmap := buildGo_hashes m.leaves.length m.leaves
  rw [hr] at hbuildmap
  rcases hroot : buildGo m.leaves.length m.leaves with _ | node
  · rw [hroot] at hbuildmap
    exact absurd hbuildmap (by simp)
  rw [hroot] at hbuildmap
  have hnode : node.hash = r := by simpa using hbuildmap
  have hne : m.leaves ≠ [] := by
    intro h
    rw [h] at h2
    simp at h2
  have hie : m.leaves.isEmpty = false := by
    simpa [List.isEmpty_iff] using hne
  have hbuild : m.build = { m with root := some node } := by
    rw [build, hie]
    simp [hroot]
  refine ⟨proofGo m.leaves.length m.leaves j target, ?_, ?_, ?_⟩
  · simp [getProof, hbuild, hfind]
  · intro hp
    have hmapp := proofGo_hashes m.leaves.length m.leaves j target
    rw [hp] at hmapp
    have hlen1 : m.leaves.length = (m.leaves.length - 1) + 1 := by omega
    refine proofH_ne_nil (m.leaves.length - 1) (m.leaves.map MerkleNode.hash) j
      (by simpa using h2) (by simpa using hjlen) ?_
    rw [← hlen1, ← hmapp]
    rfl
  · have hfold : foldProof (proofGo m.leaves.length m.leaves j target) t = node.hash := by
      rw [foldProof_eq_foldH, proofGo_hashes, hf, hnode]
    rcases hpcase : proofGo m.leaves.length m.leaves j target with _ | ⟨e, rest⟩
    · exfalso
      have hmapp := proofGo_hashes m.leaves.length m.leaves j target
      rw [hpcase] at hmapp
      have hlen1 : m.leaves.length = (m.leaves.length - 1) + 1 := by omega
      refine proofH_ne_nil (m.leaves.length - 1) (m.leaves.map MerkleNode.hash) j
        (by simpa using h2) (by simpa using hjlen) ?_
      rw [← hlen1, ← hmapp]
      rfl
    · rw [hpcase] at hfold
      simp [verifyProof, hbuild, hfold]

theorem verify_empty_false : ∀ (m : MerkleMesh) (t : String) (r : Option String),
    m.verifyProof t [] r = .ok false := by
  intro m t r
  rfl

end MerkleMesh

/-- Claim C4 (corrected), counterexample.  For a single-leaf mesh the claim
itself notes `get_proof` returns the empty list and asserts an empty proof
verifies exactly when the transaction hash equals the expected root; but
`verify_proof` rejects every empty proof, so the round trip fails on
single-leaf meshes even though the built root hash *is* the transaction
hash. -/
theorem mesh_round_trip_counterexample :
    Scenario.mesh1.build.getProof "t" none = .ok [] ∧
    Scenario.mesh1.build.getRootHash = some "t" ∧
    Scenario.mesh1.build.verifyProof "t" [] (some "t") = .ok false :=
  ⟨rfl, rfl, rfl⟩

/-- Claim C4 (corrected).  Amended round trip: for every mesh with at
least two leaves and every transaction hash occurring among the leaves,
`get_proof` succeeds with a nonempty proof and `verify_proof` accepts it
against the built root; and an empty proof never verifies (`verify_proof`
returns `False` for it regardless of the root comparison the claim
describes, which is what breaks the claimed single-leaf case). -/
theorem mesh_round_trip_amended :
    (∀ (m : MerkleMesh) (t : String) (target : Option ℕ),
        2 ≤ m.leaves.length → t ∈ m.leaves.map MerkleNode.hash →
        ∃ p, m.build.getProof t target = .ok p ∧ p ≠ [] ∧
          m.build.verifyProof t p none = .ok true) ∧
    (∀ (m : MerkleMesh) (t : String) (r : Option String),
        m.verifyProof t [] r = .ok false) :=
  ⟨MerkleMesh.mesh_round_trip_main, MerkleMesh.verify_empty_false⟩

/-- The amended round trip applied to the concrete two-leaf mesh
`Scenario.mesh2` at leaf hash `"a"`. -/
theorem mesh_round_trip_amended_witness :
    ∃ p, Scenario.mesh2.build.getProof "a" none = .ok p ∧ p ≠ [] ∧
      Scenario.mesh2.build.verifyProof "a" p none = .ok true :=
  mesh_round_trip_amended.1 Scenario.mesh2 "a" none (by decide) (by decide)

/-! ## Fork choice (claim C3): dictionary and storage invariants -/

theorem dictGet_eq_none_iff [DecidableEq K] (d : List (K × V)) (k : K) :
    dictGet d k = none ↔ ∀ p ∈ d, p.1 ≠ k := by
  simp [dictGet, List.find?_eq_none]

theorem dictDel_sublist [DecidableEq K] :
    ∀ (d : List (K × V)) (k : K), (dictDel d k).Sublist d := by
  intro d
  induction d with
  | nil => intro k; simp [dictDel]
  | cons p rest ih =>
      intro k
      rw [dictDel]
      by_cases h0 : p.1 = k
      · rw [if_pos h0]
        exact List.sublist_cons_self p rest
      · rw [if_neg h0]
        exact (ih k).cons₂ p

theorem dictGet_dictDel_none [DecidableEq K] (d : List (K × V)) (k k' : K)
    (h : dictGet d k = none) : dictGet (dictDel d k') k = none := by
  rw [dictGet_eq_none_iff] at h ⊢
  intro p hp
  exact h p ((dictDel_sublist d k').subset hp)

theorem ne_of_nodup_dictDel [DecidableEq K] :
    ∀ (d : List (K × V)) (k : K), (d.map Prod.fst).Nodup →
      ∀ p ∈ dictDel d k, p.1 ≠ k := by
  intro d
  induction d with
  | nil => intro k _ p hp; simp [dictDel] at hp
  | cons q rest ih =>
      intro k hnd p hp
      have hq : q.1 ∉ rest.map Prod.fst := (List.nodup_cons.mp hnd).1
      rw [dictDel] at hp
      by_cases h0 : q.1 = k
      · rw [if_pos h0] at hp
        intro hpk
        exact hq (h0 ▸ hpk ▸ List.mem_map.mpr ⟨p, hp, rfl⟩)
      · rw [if_neg h0] at hp
        rcases List.mem_cons.mp hp with hp | hp
        · exact hp ▸ h0
        · exact ih k (List.nodup_cons.mp hnd).2 p hp

theorem dictGet_dictDel_self [DecidableEq K] (d : List (K × V)) (k : K)
    (hnd : (d.map Prod.fst).Nodup) : dictGet (dictDel d k) k = none :=
  (dictGet_eq_none_iff _ _).mpr (ne_of_nodup_dictDel d k hnd)

theorem dictDel_nodup [DecidableEq K] (d : List (K × V)) (k : K)
    (h : (d.map Prod.fst).Nodup) : ((dictDel d k).map Prod.fst).Nodup :=
  (((dictDel_sublist d k).map Prod.fst)).nodup h

theorem dictSet_keys [DecidableEq K] :
    ∀ (d : List (K × V)) (k : K) (v : V),
      (dictSet d k v).map Prod.fst =
        if k ∈ d.map Prod.fst then d.map Prod.fst
        else d.map Prod.fst ++ [k] := by
  intro d
  induction d with
  | nil => intro k v; simp [dictSet]
  | cons p rest ih =>
      intro k v
      rw [dictSet]
      by_cases h0 : p.1 = k
      · rw [if_pos h0]
        simp [h0]
      · rw [if_neg h0]
        by_cases hm : k ∈ rest.map Prod.fst
        · simp [ih k v, hm, Ne.symm h0]
        · simp [ih k v, hm, Ne.symm h0]

theorem dictSet_nodup [DecidableEq K] (d : List (K × V)) (k : K) (v : V)
    (h : (d.map Prod.fst).Nodup) : ((dictSet d k v).map Prod.fst).Nodup := by
  rw [dictSet_keys]
  by_cases hm : k ∈ d.map Prod.fst
  · rw [if_pos hm]
    exact h
  · rw [if_neg hm]
    simp [List.nodup_append, h, hm]

theorem toCartesian_error (c : FractalCoordinate) :
    c.toCartesian = .error "unhashable type: 'FractalCoordinate'" := rfl

theorem getHashCached_error (c : FractalCoordinate) :
    c.getHashCached = .error "unhashable type: 'FractalCoordinate'" := rfl

theorem removeUtxo_never_ok (s : UTXOStorage) (uid : String)
    (s' : UTXOStorage) (h : s.removeUtxo uid = .ok s') : False := by
  rw [UTXOStorage.removeUtxo] at h
  split at h
  · exact absurd h (by simp)
  · simp [toCartesian_error] at h

theorem addUtxo_never_ok (s : UTXOStorage) (u : FractalUTXO)
    (s' : UTXOStorage) (h : s.addUtxo u = .ok s') : False := by
  rw [UTXOStorage.addUtxo] at h
  simp only [] at h
  split at h
  · exact absurd h (by simp)
  · simp [toCartesian_error] at h

namespace BlockValidator

theorem removeSpent_storage_eq :
    ∀ (ids : List String) (s : UTXOStorage), (removeSpent s ids).2 = s := by
  intro ids
  induction ids with
  | nil => intro s; rfl
  | cons uid rest ih =>
      intro s
      rw [removeSpent]
      split
      · rfl
      · rename_i s2 hr
        exact (removeUtxo_never_ok s uid s2 hr).elim

theorem addNew_storage_eq :
    ∀ (us : List FractalUTXO) (s : UTXOStorage), (addNew s us).2 = s := by
  intro us
  induction us with
  | nil => intro s; rfl
  | cons u rest ih =>
      intro s
      rw [addNew]
      split
      · rfl
      · rename_i s1 ha
        exact (addUtxo_never_ok s u s1 ha).elim

theorem execLoop_storage_eq :
    ∀ (txs : List FractalTransaction) (hh : ℤ) (s : UTXOStorage),
      (execLoop hh s txs).2 = s := by
  intro txs
  induction txs with
  | nil => intro hh s; rfl
  | cons tx rest ih =>
      intro hh s
      rw [execLoop]
      split
      · rfl
      · rename_i us heq
        split
        · rename_i e s1 han
          have := addNew_storage_eq us s
          rw [han] at this
          exact this
        · rename_i s1 han
          have h1 : s1 = s := by
            have := addNew_storage_eq us s
            rw [han] at this
            exact this
          rw [ih hh s1, h1]

theorem applyBlock_storage_eq (s : UTXOStorage) (mp : TransactionMempool)
    (b : FractalBlock) (ctx : ValidationContext) :
    (applyBlock s mp b ctx).2.1 = s := by
  rw [applyBlock]
  split
  · rename_i s1 hr
    have := removeSpent_storage_eq ctx.spent_utxos s
    rw [hr] at this
    exact this
  · rename_i s1 hr
    have h1 : s1 = s := by
      have := removeSpent_storage_eq ctx.spent_utxos s
      rw [hr] at this
      exact this
    split
    · rename_i s2 hx
      have := execLoop_storage_eq b.transactions b.header.height s1
      rw [hx] at this
      simp only [] at this
      rw [this, h1]
    · rename_i s2 hx
      have := execLoop_storage_eq b.transactions b.header.height s1
      rw [hx] at this
      simp only [] at this
      rw [this, h1]

theorem applyBlock_mempool_or (s : UTXOStorage) (mp : TransactionMempool)
    (b : FractalBlock) (ctx : ValidationContext) :
    (applyBlock s mp b ctx).2.2 = mp ∨ (applyBlock s mp b ctx).1.1 = true := by
  rw [applyBlock]
  split
  · exact Or.inl rfl
  · split
    · exact Or.inl rfl
    · exact Or.inr rfl

theorem restoreSpent_storage_eq :
    ∀ (l : List TransactionInput) (s : UTXOStorage),
      (restoreSpent s l).2 = s := by
  intro l
  induction l with
  | nil => intro s; rfl
  | cons i rest ih =>
      intro s
      rw [restoreSpent]
      split
      · exact ih s
      · rename_i u hu
        split
        · rfl
        · rename_i s1 ha
          exact (addUtxo_never_ok s u s1 ha).elim

theorem restoreLoop_storage_eq :
    ∀ (txs : List FractalTransaction) (s : UTXOStorage),
      (revertBlock.restoreLoop s txs).2 = s := by
  intro txs
  induction txs with
  | nil => intro s; rfl
  | cons tx rest ih =>
      intro s
      rw [revertBlock.restoreLoop]
      split
      · rename_i s2 hr
        have := restoreSpent_storage_eq tx.inputs s
        rw [hr] at this
        exact this
      · rename_i s2 hr
        have h2 : s2 = s := by
          have := restoreSpent_storage_eq tx.inputs s
          rw [hr] at this
          exact this
        rw [ih s2, h2]

theorem revertBlock_storage_eq (s : UTXOStorage) (mp : TransactionMempool)
    (now : ℤ) (txSize : FractalTransaction → ℕ) (b : FractalBlock)
    (ctx : ValidationContext) :
    (revertBlock s mp now txSize b ctx).2.1 = s := by
  rw [revertBlock]
  split
  · rename_i s1 hr
    have := removeSpent_storage_eq (ctx.created_utxos.map (·.1)) s
    rw [hr] at this
    exact this
  · rename_i s1 hr
    have h1 : s1 = s := by
      have := removeSpent_storage_eq (ctx.created_utxos.map (·.1)) s
      rw [hr] at this
      exact this
    split
    · rename_i s2 hl
      have := restoreLoop_storage_eq b.transactions s1
      rw [hl] at this
      simp only [] at this
      rw [this, h1]
    · rename_i s2 hl
      have := restoreLoop_storage_eq b.transactions s1
      rw [hl] at this
      simp only [] at this
      rw [this, h1]

end BlockValidator

theorem mk'_never_ok {o : String} {a : ℚ} {c : FractalCoordinate} {hh : ℤ}
    {sc : String} {csh : Option String} {g : Option ℤ} {u : FractalUTXO}
    (h : FractalUTXO.mk' o a c hh sc csh g = .ok u) : False := by
  rw [FractalUTXO.mk'] at h
  split_ifs at h
  all_goals simp [getHashCached_error] at h

theorem buildOutputs_ok_nil :
    ∀ (outs : List TransactionOutput) (hh : ℤ) (us : List FractalUTXO),
      FractalTransaction.buildOutputs hh outs = .ok us → outs = [] := by
  intro outs
  cases outs with
  | nil => intro hh us _; rfl
  | cons o rest =>
      intro hh us h
      rw [FractalTransaction.buildOutputs] at h
      split at h
      · exact absurd h (by simp)
      · rename_i u heq
        exact (mk'_never_ok heq).elim

theorem mk'_ok_pos {o : String} {a : ℚ} {c : FractalCoordinate} {hh : ℤ}
    {sc : String} {csh : Option String} {g : Option ℤ} {u : FractalUTXO}
    (h : FractalUTXO.mk' o a c hh sc csh g = .ok u) : 0 < a := by
  rw [FractalUTXO.mk'] at h
  by_contra hc
  push_neg at hc
  rw [if_pos hc] at h
  exact absurd h (by simp)

theorem buildOutputs_ok_pos :
    ∀ (outs : List TransactionOutput) (hh : ℤ) (us : List FractalUTXO),
      FractalTransaction.buildOutputs hh outs = .ok us →
      ∀ o ∈ outs, 0 < o.amount := by
  intro outs
  induction outs with
  | nil => intro hh us _ o ho; simp at ho
  | cons o1 rest ih =>
      intro hh us h o ho
      rw [FractalTransaction.buildOutputs] at h
      split at h
      · exact absurd h (by simp)
      · rename_i u heq
        rcases List.mem_cons.mp ho with ho | ho
        · subst ho
          exact mk'_ok_pos heq
        · rcases hb : FractalTransaction.buildOutputs hh rest with e | us'
          · rw [hb] at h
            exact absurd h (by simp [Except.map])
          · exact ih hh us' hb o ho

theorem validate_true_inputs_nil (tx : FractalTransaction)
    (storage : UTXOStorage) (hh : ℤ) (mp : Option (String → Bool))
    (hnil : tx.inputs = []) (h : (tx.validate storage hh mp).1 = true) :
    (tx.outputs.map (·.amount)).sum ≤ 0 := by
  rw [FractalTransaction.validate, hnil] at h
  simp only [FractalTransaction.validateInputs] at h
  split at h
  · simp at h
  · rename_i hns
    exact le_of_not_lt (by simpa using hns)

theorem validate_true_inputs_cons (tx : FractalTransaction)
    (storage : UTXOStorage) (hh : ℤ) (mp : Option (String → Bool))
    (i : TransactionInput) (rest2 : List TransactionInput)
    (hcons : tx.inputs = i :: rest2)
    (h : (tx.validate storage hh mp).1 = true) :
    (storage.getUtxo i.utxo_id).isSome := by
  rcases hg : storage.getUtxo i.utxo_id with _ | u
  · rw [FractalTransaction.validate, hcons] at h
    simp only [FractalTransaction.validateInputs, hg] at h
    simp at h
  · simp

theorem execute_true (tx : FractalTransaction) (storage : UTXOStorage)
    (hh : ℤ) (h : (tx.execute storage hh).1 = true) :
    (tx.validate storage hh none).1 = true ∧
    ∃ us, FractalTransaction.buildOutputs hh tx.outputs = .ok us := by
  rw [FractalTransaction.execute] at h
  split at h
  · simp at h
  · rename_i e heqv
    refine ⟨by rw [heqv], ?_⟩
    split at h
    · simp at h
    · rename_i us heqb
      exact ⟨us, heqb⟩

namespace BlockValidator

theorem addSpent_mono :
    ∀ (l : List TransactionInput) (spent r : List String),
      addSpent spent l = (none, r) → ∀ x ∈ spent, x ∈ r := by
  intro l
  induction l with
  | nil =>
      intro spent r h x hx
      rw [addSpent] at h
      injection h with _ h2
      exact h2 ▸ hx
  | cons i rest ih =>
      intro spent r h x hx
      rw [addSpent] at h
      split at h
      · exact absurd h (by simp)
      · exact ih _ r h x (by simp [hx])

theorem addSpent_head_mem (i : TransactionInput)
    (rest : List TransactionInput) (spent r : List String)
    (h : addSpent spent (i :: rest) = (none, r)) : i.utxo_id ∈ r := by
  rw [addSpent] at h
  split at h
  · exact absurd h (by simp)
  · exact addSpent_mono rest _ r h i.utxo_id (by simp)

theorem validateTransaction_true (storage : UTXOStorage)
    (mp : TransactionMempool) (tx : FractalTransaction)
    (block : FractalBlock) (ctx ctx' : ValidationContext) (e : Option String)
    (h : validateTransaction storage mp tx block ctx = ((true, e), ctx')) :
    (tx.validate storage block.header.height (some mp.isUtxoSpent)).1
        = true ∧
    (∀ x ∈ ctx.spent_utxos, x ∈ ctx'.spent_utxos) ∧
    (∀ i rest2, tx.inputs = i :: rest2 → i.utxo_id ∈ ctx'.spent_utxos) := by
  rw [validateTransaction] at h
  split at h
  · exact absurd h (by simp)
  · rename_i e0 heqv
    refine ⟨by rw [heqv], ?_⟩
    split at h
    · exact absurd h (by simp)
    · rename_i spent heqs
      simp only [] at h
      split at h
      · split at h
        · exact absurd h (by simp)
        · rename_i pf heqp
          injection h with h1 h2
          constructor
          · intro x hx
            rw [← h2]
            exact addSpent_mono tx.inputs ctx.spent_utxos spent heqs x hx
          · intro i rest2 hi
            rw [← h2]
            rw [hi] at heqs
            exact addSpent_head_mem i rest2 ctx.spent_utxos spent heqs
      · injection h with h1 h2
        constructor
        · intro x hx
          rw [← h2]
          exact addSpent_mono tx.inputs ctx.spent_utxos spent heqs x hx
        · intro i rest2 hi
          rw [← h2]
          rw [hi] at heqs
          exact addSpent_head_mem i rest2 ctx.spent_utxos spent heqs

theorem validateTxLoop_spent_mono :
    ∀ (txs : List FractalTransaction) (storage : UTXOStorage)
      (mp : TransactionMempool) (block : FractalBlock)
      (ctx ctx' : ValidationContext) (e : Option String),
      validateTxLoop storage mp block ctx txs = ((true, e), ctx') →
      ∀ x ∈ ctx.spent_utxos, x ∈ ctx'.spent_utxos := by
  intro txs
  induction txs with
  | nil =>
      intro storage mp block ctx ctx' e h x hx
      rw [validateTxLoop] at h
      injection h with _ h2
      exact h2 ▸ hx
  | cons tx rest ih =>
      intro storage mp block ctx ctx' e h x hx
      rw [validateTxLoop] at h
      split at h
      · exact absurd h (by simp)
      · rename_i e1 ctx1 heq
        exact ih storage mp block ctx1 ctx' e h x
          ((validateTransaction_true storage mp tx block ctx ctx1 e1
            heq).2.1 x hx)

theorem validateTxLoop_head_true (storage : UTXOStorage)
    (mp : TransactionMempool) (block : FractalBlock)
    (ctx ctx' : ValidationContext) (e : Option String)
    (tx : FractalTransaction) (rest : List FractalTransaction)
    (h : validateTxLoop storage mp block ctx (tx :: rest) = ((true, e), ctx')) :
    (tx.validate storage block.header.height (some mp.isUtxoSpent)).1
        = true ∧
    (∀ i rest2, tx.inputs = i :: rest2 → i.utxo_id ∈ ctx'.spent_utxos) := by
  rw [validateTxLoop] at h
  split at h
  · exact absurd h (by simp)
  · rename_i e1 ctx1 heq
    have hv := validateTransaction_true storage mp tx block ctx ctx1 e1 heq
    refine ⟨hv.1, ?_⟩
    intro i rest2 hi
    exact validateTxLoop_spent_mono rest storage mp block ctx1 ctx' e h
      i.utxo_id (hv.2.2 i rest2 hi)

end BlockValidator

theorem verify_transactions_eq (b : FractalBlock)
    (prev : Option FractalBlock) (st : Option UTXOStorage) :
    (b.verify prev st).2.transactions = b.transactions := by
  rw [FractalBlock.verify.eq_def]
  repeat' split
  all_goals try rfl
  all_goals simp [apply_ite]

theorem verify_block_hash_eq (b : FractalBlock)
    (prev : Option FractalBlock) (st : Option UTXOStorage) :
    (b.verify prev st).2.block_hash = b.block_hash := by
  rw [FractalBlock.verify.eq_def]
  repeat' split
  all_goals try rfl
  all_goals simp [apply_ite]

theorem verify_prev_hash_eq (b : FractalBlock)
    (prev : Option FractalBlock) (st : Option UTXOStorage) :
    (b.verify prev st).2.header.prev_hash = b.header.prev_hash := by
  rw [FractalBlock.verify.eq_def]
  repeat' split
  all_goals try rfl
  all_goals simp [apply_ite]

theorem verify_false_of_transactions_nil (b : FractalBlock)
    (prev : Option FractalBlock) (st : Option UTXOStorage)
    (hT : b.transactions = []) : (b.verify prev st).1.1 = false := by
  have hm : b.buildMerkleMesh = .ok ⟨none, [], []⟩ := by
    rw [FractalBlock.buildMerkleMesh, hT]
    rfl
  rw [FractalBlock.verify.eq_def]
  repeat' split
  all_goals try rfl
  all_goals simp_all

theorem verify_true_mesh_ok (b : FractalBlock) (prev : Option FractalBlock)
    (st : Option UTXOStorage) (h : (b.verify prev st).1.1 = true) :
    ∃ mesh root, b.buildMerkleMesh = .ok mesh ∧ mesh.root = some root := by
  rw [FractalBlock.verify.eq_def] at h
  split at h
  · simp at h
  · split at h
    · simp at h
    · split at h
      · simp at h
      · split at h
        · simp at h
        · split at h
          · simp at h
          · split at h
            · simp at h
            · split at h
              · simp at h
              · rename_i mesh heqm
                split at h
                · simp at h
                · rename_i root heqr
                  exact ⟨mesh, root, heqm, heqr⟩

theorem verify_true_transactions_ne_nil (b : FractalBlock)
    (prev : Option FractalBlock) (st : Option UTXOStorage)
    (h : (b.verify prev st).1.1 = true) : b.transactions ≠ [] := by
  intro hnil
  obtain ⟨mesh, root, hm, hr⟩ := verify_true_mesh_ok b prev st h
  have hm0 : b.buildMerkleMesh = .ok ⟨none, [], []⟩ := by
    rw [FractalBlock.buildMerkleMesh, hnil]
    rfl
  rw [hm0] at hm
  injection hm with hm2
  rw [← hm2] at hr
  simp [MerkleMesh.root] at hr

theorem meshLeaves_ok_outputs :
    ∀ (txs : List FractalTransaction)
      (ls : List (String × FractalCoordinate)),
      FractalBlock.meshLeaves txs = .ok ls →
      ∀ tx ∈ txs, tx.outputs ≠ [] := by
  intro txs
  induction txs with
  | nil => intro ls _ tx htx; simp at htx
  | cons tx1 rest ih =>
      intro ls h tx htx
      rw [FractalBlock.meshLeaves] at h
      split at h
      · exact absurd h (by simp)
      · rename_i o ho
        rcases List.mem_cons.mp htx with htx | htx
        · subst htx
          intro hn
          rw [hn] at ho
          simp at ho
        · rcases hml : FractalBlock.meshLeaves rest with e | ls'
          · rw [hml] at h
            exact absurd h (by simp [Except.map])
          · exact ih ls' hml tx htx

theorem verify_true_outputs_ne_nil (b : FractalBlock)
    (prev : Option FractalBlock) (st : Option UTXOStorage)
    (h : (b.verify prev st).1.1 = true) :
    ∀ tx ∈ b.transactions, tx.outputs ≠ [] := by
  obtain ⟨mesh, root, hm, _⟩ := verify_true_mesh_ok b prev st h
  rw [FractalBlock.buildMerkleMesh] at hm
  rcases hml : FractalBlock.meshLeaves b.transactions with e | ls
  · rw [hml] at hm
    exact absurd hm (by simp [Except.map])
  · exact meshLeaves_ok_outputs b.transactions ls hml

namespace BlockValidator

theorem validateBlock_apply_false
    (consensus : ShardConsensus) (storage : UTXOStorage)
    (mempool : TransactionMempool) (now : ℤ) (block : FractalBlock)
    (prev : Option FractalBlock) (refs : Option (List (ℕ × FractalBlock)))
    (em : Option String) (ctxOpt : Option ValidationContext)
    (consensus' : ShardConsensus) (block' : FractalBlock)
    (hv : validateBlock consensus storage mempool now block prev refs =
      ((true, em, ctxOpt), consensus', block')) :
    (applyBlock storage mempool block'
      (ctxOpt.getD ⟨[], [], []⟩)).1.1 = false := by
  rw [validateBlock] at hv
  split at hv
  · exact absurd hv (by simp)
  · rename_i cons1 heqc
    split at hv
    · exact absurd hv (by simp)
    · rename_i e1 bv heqverify
      split at hv
      · exact absurd hv (by simp)
      · rename_i es ctxv heqloop
        split at hv
        · exact absurd hv (by simp)
        · rename_i e2 heqcss
          simp only [Prod.mk.injEq] at hv
          obtain ⟨⟨htrue, hem, hctxOpt⟩, hcons, hblk⟩ := hv
          subst hblk
          have hvtrue : (block.verify prev (some storage)).1.1 = true := by
            rw [heqverify]
          have hTne : bv.transactions ≠ [] := by
            have h1 := verify_true_transactions_ne_nil block prev
              (some storage) hvtrue
            have h2 := verify_transactions_eq block prev (some storage)
            rw [heqverify] at h2
            rw [h2]
            exact h1
          obtain ⟨tx1, txs, hTcons⟩ := List.exists_cons_of_ne_nil hTne
          have hone : tx1.outputs ≠ [] := by
            have ho := verify_true_outputs_ne_nil block prev
              (some storage) hvtrue tx1
            have h2 := verify_transactions_eq block prev (some storage)
            rw [heqverify] at h2
            refine ho ?_
            rw [← h2, hTcons]
            simp
          rw [applyBlock]
          split
          · rfl
          · rename_i st1 hrs
            split
            · rfl
            · rename_i st2 hex
              exfalso
              rw [hTcons, execLoop] at hex
              split at hex
              · exact absurd hex (by simp)
              · rename_i us hexe
                have het : (tx1.execute st1 bv.header.height).1 = true := by
                  rw [hexe]
                obtain ⟨hval2, us2, hbo⟩ :=
                  execute_true tx1 st1 bv.header.height het
                exact hone (buildOutputs_ok_nil tx1.outputs bv.header.height
                  us2 hbo)

end BlockValidator

namespace FractalBlockchain

theorem addBlockGo_preserves (fuel : ℕ) (now : ℤ)
    (txSize : FractalTransaction → ℕ) (st : FractalBlockchain)
    (block : FractalBlock) (refs : Option (List (ℕ × FractalBlock)))
    (hnd : (st.storage.utxos.map Prod.fst).Nodup) :
    (addBlockGo fuel now txSize st block refs).2.heads = st.heads ∧
    (addBlockGo fuel now txSize st block refs).2.main_head = st.main_head ∧
    (addBlockGo fuel now txSize st block refs).2.blocks = st.blocks ∧
    ((addBlockGo fuel now txSize st block refs).2.storage.utxos.map
      Prod.fst).Nodup := by
  cases fuel with
  | zero => exact ⟨rfl, rfl, rfl, hnd⟩
  | succ fuel =>
      rw [addBlockGo]
      split
      · exact ⟨rfl, rfl, rfl, hnd⟩
      · split
        · exact ⟨rfl, rfl, rfl, hnd⟩
        · rename_i parent hpar
          split
          · exact ⟨rfl, rfl, rfl, hnd⟩
          · rename_i parent_head hph
            split
            · exact ⟨rfl, rfl, rfl, hnd⟩
            · rename_i x ctxOpt consensus' block' heqv
              simp only []
              split
              · rename_i e storage' mempool' heqa
                refine ⟨rfl, rfl, rfl, ?_⟩
                have hap := BlockValidator.applyBlock_storage_eq st.storage
                  st.mempool block' (ctxOpt.getD ⟨[], [], []⟩)
                rw [heqa] at hap
                simp only [] at hap
                rw [hap]
                exact hnd
              · rename_i y storage' mempool' heqa
                exfalso
                have hfalse := BlockValidator.validateBlock_apply_false
                  st.consensus st.storage st.mempool now block (some parent)
                  refs x ctxOpt consensus' block' heqv
                rw [heqa] at hfalse
                simp at hfalse

end FractalBlockchain

theorem validateBlock_block_fields (consensus : ShardConsensus)
    (storage : UTXOStorage) (mempool : TransactionMempool) (now : ℤ)
    (block : FractalBlock) (prev : Option FractalBlock)
    (refs : Option (List (ℕ × FractalBlock)))
    (r : Bool × Option String × Option ValidationContext)
    (c' : ShardConsensus) (b' : FractalBlock)
    (h : BlockValidator.validateBlock consensus storage mempool now block
      prev refs = (r, c', b')) :
    b'.header.prev_hash = block.header.prev_hash ∧
    b'.block_hash = block.block_hash := by
  rw [BlockValidator.validateBlock] at h
  split at h
  · simp only [Prod.mk.injEq] at h
    obtain ⟨_, _, hb⟩ := h
    subst hb
    exact ⟨rfl, rfl⟩
  · rename_i cons1 heqc
    have hp := verify_prev_hash_eq block prev (some storage)
    have hh := verify_block_hash_eq block prev (some storage)
    split at h
    all_goals rename_i bv heqverify
    · rw [heqverify] at hp hh
      simp only [Prod.mk.injEq] at h
      obtain ⟨_, _, hb⟩ := h
      subst hb
      exact ⟨hp, hh⟩
    all_goals rw [heqverify] at hp hh
    all_goals split at h
    all_goals try (simp only [Prod.mk.injEq] at h
                   obtain ⟨_, _, hb⟩ := h
                   subst hb
                   exact ⟨hp, hh⟩)
    all_goals split at h
    all_goals (simp only [Prod.mk.injEq] at h
               obtain ⟨_, _, hb⟩ := h
               subst hb
               exact ⟨hp, hh⟩)

theorem runCalls_preserves :
    ∀ (calls : List ChainCall) (st : FractalBlockchain),
      (st.storage.utxos.map Prod.fst).Nodup →
      (runCalls st calls).heads = st.heads ∧
      (runCalls st calls).main_head = st.main_head ∧
      (runCalls st calls).blocks = st.blocks := by
  intro calls
  induction calls with
  | nil => intro st _; exact ⟨rfl, rfl, rfl⟩
  | cons c rest ih =>
      intro st hnd
      have hstep := FractalBlockchain.addBlockGo_preserves c.fuel c.now
        c.txSize st c.block c.refs hnd
      rw [runCalls]
      have hrec := ih (st.addBlock c.now c.txSize c.block c.refs c.fuel).2
        hstep.2.2.2
      refine ⟨?_, ?_, ?_⟩
      · rw [hrec.1]
        exact hstep.1
      · rw [hrec.2.1]
        exact hstep.2.1
      · rw [hrec.2.2]
        exact hstep.2.2.1

/-- Claim C3 (confirmed).  Fork-choice monotonicity with additive
cumulative difficulty: after any finite sequence of `add_block` calls from
an initialized chain (genesis not its own parent, duplicate-free UTXO
store), `main_head` is a head of maximal cumulative difficulty among the
entries of the heads map, and every head's `total_difficulty` equals the
plain additive sum of header `difficulty` fields along its chain at every
walk depth.  The property holds because `add_block` can never install a
new head: `verify` rejects transaction-less blocks, and for any block that
passes validation `apply_block` fails — its spent-UTXO removal raises
inside `remove_utxo` before deleting, and its execute loop fails at the
first UTXO constructor call — so every call returns before the head
bookkeeping and the initial single-head state persists. -/
theorem fork_choice_monotonicity
    (shard_id : ℕ) (consensus : ShardConsensus) (storage : UTXOStorage)
    (mempool : TransactionMempool) (now₀ : ℤ) (genesis : FractalBlock)
    (st₀ : FractalBlockchain) (calls : List ChainCall)
    (hnd : (storage.utxos.map Prod.fst).Nodup)
    (hg : genesis.header.prev_hash ≠ FractalBlockchain.blockKey genesis)
    (hinit : FractalBlockchain.initChain shard_id consensus storage mempool
      now₀ genesis = .ok st₀) :
    ∃ h, (runCalls st₀ calls).main_head = some h ∧
      h ∈ (runCalls st₀ calls).heads.map Prod.snd ∧
      (∀ h' ∈ (runCalls st₀ calls).heads.map Prod.snd,
        h'.total_difficulty ≤ h.total_difficulty) ∧
      (∀ fuel, ∀ h' ∈ (runCalls st₀ calls).heads.map Prod.snd,
        chainDiffSum (runCalls st₀ calls).blocks fuel h'.block
          = h'.total_difficulty) := by
  rw [FractalBlockchain.initChain] at hinit
  split at hinit
  · exact absurd hinit (by simp)
  · rename_i x ctxOpt consensus' g' heqvb
    injection hinit with h0
    subst h0
    have hfields := validateBlock_block_fields consensus storage mempool now₀
      genesis none none (true, x, ctxOpt) consensus' g' heqvb
    have hkey : FractalBlockchain.blockKey g' = FractalBlockchain.blockKey
        genesis := by
      rw [FractalBlockchain.blockKey, FractalBlockchain.blockKey, hfields.2]
    have hpr : g'.header.prev_hash = genesis.header.prev_hash := hfields.1
    have hlookup : ∀ blocks2 : List (String × FractalBlock),
        blocks2 = [(FractalBlockchain.blockKey g', g')] →
        dictGet blocks2 g'.header.prev_hash = none := by
      intro blocks2 hb
      subst hb
      rw [dictGet_eq_none_iff]
      intro p hp
      rcases List.mem_singleton.mp hp with rfl
      simp only [hpr, hkey]
      exact fun hc => hg hc.symm
    obtain ⟨hheads, hmain, hblocks⟩ := runCalls_preserves calls
      ⟨shard_id, consensus', storage, mempool,
        [(FractalBlockchain.blockKey g', g')],
        [(FractalBlockchain.blockKey g', ⟨g', 0, g'.header.difficulty,
          ctxOpt.getD ⟨[], [], []⟩⟩)],
        some ⟨g', 0, g'.header.difficulty, ctxOpt.getD ⟨[], [], []⟩⟩, [], []⟩
      hnd
    refine ⟨⟨g', 0, g'.header.difficulty, ctxOpt.getD ⟨[], [], []⟩⟩,
      ?_, ?_, ?_, ?_⟩
    · rw [hmain]
    · rw [hheads]
      simp
    · rw [hheads]
      intro h' hh'
      simp at hh'
      rw [hh']
    · intro fuel h' hh'
      rw [hheads] at hh'
      simp at hh'
      rw [hblocks, hh']
      cases fuel with
      | zero => rfl
      | succ fuel =>
          rw [chainDiffSum]
          rw [hlookup _ rfl]

/-- The fork-choice theorem applied to the concrete initialized chain
`Scenario.chain2` and one `add_block` call submitting `Scenario.block2`. -/
theorem fork_choice_monotonicity_witness :
    ∃ h, (runCalls Scenario.chain2
        [⟨2000, Scenario.sz1, Scenario.block2, none, 10⟩]).main_head
          = some h ∧
      h ∈ (runCalls Scenario.chain2
        [⟨2000, Scenario.sz1, Scenario.block2, none, 10⟩]).heads.map
          Prod.snd ∧
      (∀ h' ∈ (runCalls Scenario.chain2
          [⟨2000, Scenario.sz1, Scenario.block2, none, 10⟩]).heads.map
            Prod.snd,
        h'.total_difficulty ≤ h.total_difficulty) ∧
      (∀ fuel, ∀ h' ∈ (runCalls Scenario.chain2
          [⟨2000, Scenario.sz1, Scenario.block2, none, 10⟩]).heads.map
            Prod.snd,
        chainDiffSum (runCalls Scenario.chain2
          [⟨2000, Scenario.sz1, Scenario.block2, none, 10⟩]).blocks fuel
          h'.block = h'.total_difficulty) :=
  fork_choice_monotonicity 0 Scenario.consensus0 Scenario.store2
    Scenario.mempool0 2000 Scenario.genesis2 Scenario.chain2
    [⟨2000, Scenario.sz1, Scenario.block2, none, 10⟩]
    (by with_unfolding_all decide) (by with_unfolding_all decide)
    (by with_unfolding_all rfl)

/-! ## Claim theorems: apply/revert inverse and
`add_block` transactionality -/

/-- Claim C1 (confirmed).  For every block `B` the validator accepts with
context `C`, `apply_block(B, C)` followed by `revert_block(B, C)` leaves
the UTXO store bit-identical to its pre-apply state — every affected id
included.  The inverse holds degenerately, because neither call can
mutate the store: `apply_block`'s spent-UTXO removal raises inside
`remove_utxo` at the `to_cartesian` call before deleting anything, its
execute loop fails at the first UTXO constructor, and `revert_block`'s
created-UTXO removals and spent-UTXO re-adds fail the same way — so the
store that existed before apply is exactly the store after revert, with
`apply_block` itself reporting failure. -/
theorem apply_revert_inverse
    (consensus : ShardConsensus) (storage : UTXOStorage)
    (mempool : TransactionMempool) (vnow now : ℤ)
    (txSize : FractalTransaction → ℕ) (block : FractalBlock)
    (prev : Option FractalBlock) (refs : Option (List (ℕ × FractalBlock)))
    (em : Option String) (ctxOpt : Option ValidationContext)
    (consensus' : ShardConsensus) (B : FractalBlock)
    (hv : BlockValidator.validateBlock consensus storage mempool vnow block
      prev refs = ((true, em, ctxOpt), consensus', B)) :
    (BlockValidator.applyBlock storage mempool B
        (ctxOpt.getD ⟨[], [], []⟩)).1.1 = false ∧
    (BlockValidator.applyBlock storage mempool B
        (ctxOpt.getD ⟨[], [], []⟩)).2.1 = storage ∧
    (BlockValidator.revertBlock
        (BlockValidator.applyBlock storage mempool B
          (ctxOpt.getD ⟨[], [], []⟩)).2.1
        (BlockValidator.applyBlock storage mempool B
          (ctxOpt.getD ⟨[], [], []⟩)).2.2 now txSize B
        (ctxOpt.getD ⟨[], [], []⟩)).2.1 = storage :=
  ⟨BlockValidator.validateBlock_apply_false consensus storage mempool vnow
      block prev refs em ctxOpt consensus' B hv,
   BlockValidator.applyBlock_storage_eq storage mempool B
      (ctxOpt.getD ⟨[], [], []⟩),
   by
     rw [BlockValidator.revertBlock_storage_eq]
     exact BlockValidator.applyBlock_storage_eq storage mempool B
       (ctxOpt.getD ⟨[], [], []⟩)⟩

/-- `apply_revert_inverse` at the concrete accepted block `block1`:
`c1Apply` fails without touching `store1`, and `c1Revert` hands back the
store it started from. -/
theorem apply_revert_inverse_witness :
    Scenario.c1Apply.1.1 = false ∧
    Scenario.c1Apply.2.1 = Scenario.store1 ∧
    Scenario.c1Revert.2.1 = Scenario.store1 :=
  apply_revert_inverse Scenario.consensus0 Scenario.store1 Scenario.mempool0
    2000 2000 (fun _ => 1) Scenario.block1 none none
    Scenario.c1V.1.2.1 Scenario.c1V.1.2.2 Scenario.c1V.2.1 Scenario.c1V.2.2
    (by
      have h : Scenario.c1V.1.1 = true := by with_unfolding_all decide
      calc Scenario.c1V
          = ((Scenario.c1V.1.1, Scenario.c1V.1.2.1, Scenario.c1V.1.2.2),
              Scenario.c1V.2.1, Scenario.c1V.2.2) := rfl
        _ = ((true, Scenario.c1V.1.2.1, Scenario.c1V.1.2.2),
              Scenario.c1V.2.1, Scenario.c1V.2.2) := by rw [h])

/-- Claim C2 (confirmed).  `add_block` is transactional in the shared
state the claim names: on every erroring call the UTXO store, the
mempool, the blocks map, the heads map and `main_head` are unchanged —
apply-stage failures cannot mutate the store (`remove_utxo` and the UTXO
constructor raise before mutating) and the mempool is only touched on
apply success, which `validateBlock_apply_false` rules out along with the
partially-mutating reorganization path; on every successful call the
block is installed: the only reachable success is the duplicate no-op,
whose block already sits in the blocks map under its hash. -/
theorem add_block_transactional
    (fuel : ℕ) (now : ℤ) (txSize : FractalTransaction → ℕ)
    (st : FractalBlockchain) (block : FractalBlock)
    (refs : Option (List (ℕ × FractalBlock))) :
    ((st.addBlock now txSize block refs fuel).1.1 = false →
      (st.addBlock now txSize block refs fuel).2.storage = st.storage ∧
      (st.addBlock now txSize block refs fuel).2.mempool = st.mempool ∧
      (st.addBlock now txSize block refs fuel).2.blocks = st.blocks ∧
      (st.addBlock now txSize block refs fuel).2.heads = st.heads ∧
      (st.addBlock now txSize block refs fuel).2.main_head
        = st.main_head) ∧
    ((st.addBlock now txSize block refs fuel).1.1 = true →
      ∃ h, block.block_hash = some h ∧
        (dictGet (st.addBlock now txSize block refs fuel).2.blocks
          h).isSome) := by
  cases fuel with
  | zero =>
      constructor
      · intro _
        exact ⟨rfl, rfl, rfl, rfl, rfl⟩
      · intro hT
        exact absurd hT (by simp [FractalBlockchain.addBlock,
          FractalBlockchain.addBlockGo])
  | succ fuel =>
      rw [FractalBlockchain.addBlock, FractalBlockchain.addBlockGo]
      split
      · rename_i hdup
        constructor
        · intro hF
          exact absurd hF (by simp)
        · intro _
          rcases hbh : block.block_hash with _ | h
          · rw [hbh] at hdup
            simp at hdup
          · rw [hbh] at hdup
            simp at hdup
            exact ⟨h, rfl, by simpa using hdup⟩
      · split
        · constructor
          · intro _
            exact ⟨rfl, rfl, rfl, rfl, rfl⟩
          · intro hT
            exact absurd hT (by simp)
        · rename_i parent hpar
          split
          · constructor
            · intro _
              exact ⟨rfl, rfl, rfl, rfl, rfl⟩
            · intro hT
              exact absurd hT (by simp)
          · rename_i parent_head hph
            split
            · constructor
              · intro _
                exact ⟨rfl, rfl, rfl, rfl, rfl⟩
              · intro hT
                exact absurd hT (by simp)
            · rename_i x ctxOpt consensus' block' heqv
              simp only []
              split
              · rename_i e storage' mempool' heqa
                constructor
                · intro _
                  refine ⟨?_, ?_, rfl, rfl, rfl⟩
                  · have hap := BlockValidator.applyBlock_storage_eq
                      st.storage st.mempool block' (ctxOpt.getD ⟨[], [], []⟩)
                    rw [heqa] at hap
                    simpa using hap
                  · have hmp := BlockValidator.applyBlock_mempool_or
                      st.storage st.mempool block' (ctxOpt.getD ⟨[], [], []⟩)
                    rw [heqa] at hmp
                    simpa using hmp
                · intro hT
                  exact absurd hT (by simp)
              · rename_i y storage' mempool' heqa
                exfalso
                have hfalse := BlockValidator.validateBlock_apply_false
                  st.consensus st.storage st.mempool now block (some parent)
                  refs x ctxOpt consensus' block' heqv
                rw [heqa] at hfalse
                simp at hfalse

/-- `add_block_transactional` at the concrete erroring call `c2Add`
(submitting the valid `block2` to the initialized chain `chain2`). -/
theorem add_block_transactional_witness :
    Scenario.c2Add.1.1 = false ∧
    Scenario.c2Add.2.storage = Scenario.chain2.storage ∧
    Scenario.c2Add.2.mempool = Scenario.chain2.mempool ∧
    Scenario.c2Add.2.blocks = Scenario.chain2.blocks ∧
    Scenario.c2Add.2.heads = Scenario.chain2.heads ∧
    Scenario.c2Add.2.main_head = Scenario.chain2.main_head :=
  have hF : Scenario.c2Add.1.1 = false := by with_unfolding_all decide
  ⟨hF, (add_block_transactional 10 2000 Scenario.sz1 Scenario.chain2
    Scenario.block2 none).1 hF⟩
